import Mathlib

/-!
Verification development for the MapArt-Bot repository.

The definitions below are a shallow embedding of the repository's core:

* `DatabaseManager` (src/src/utils/ImageProcessor.js, sqlite-backed ledger):
  the tables `project`, `blocks`, `strips` and the operations
  `clearProject`, `startNewMapArt`, `setPaused`, `claimStrip`,
  `releaseStrip`, `completeStrip`, `updateBlockPlaced`,
  `getPlacementsForStrip`, `getCompletionStats`.
* `StripPlacer` (src/config/mapart_offsets.js, the final version taking the
  DatabaseManager): `_groupIntoFourRowBatches`, `findSafeStandPosForBatch`,
  `placeBatchFromPosition`, `buildCurrentStrip`.
* `Restocker` (src/config/mapart_offsets.js): `discardInventory`,
  `restock`, `withdrawFromChest`.
* `MapArtBot.mainLoop`'s BUILDING branch (the gate for `completeStrip`).

External effects (mineflayer world reads, pathfinding, chest windows) are
modelled as explicit oracle parameters; each abstraction is noted at the
definition it concerns.  Machine numbers in the source are non-negative
JavaScript integers well inside 2^53, so they are modelled as `Nat`
(world coordinates, which go negative, as `Int`); no arithmetic overflow
can occur at these magnitudes.
-/

namespace MapArtBot

/-- Status column of the `strips` table: `'pending' | 'assigned' | 'completed'`. -/
inductive StripStatus where
  | pending
  | assigned
  | completed
deriving DecidableEq, Repr

/-- One row of the `strips` table (`strip_index` is the list position).
`assigned_at` (a SQL timestamp) is modelled as a `Nat`. -/
structure StripRec where
  status : StripStatus
  assigned_to : Option String
  assigned_at : Option Nat
deriving DecidableEq, Repr

/-- One row of the `blocks` table, keyed by `(x, z)`. -/
structure BlockRec where
  x : Nat
  z : Nat
  color_name : String
  item_id : String
  is_placed : Bool
deriving DecidableEq, Repr

/-- The singleton `project` row (id = 1). -/
structure ProjectRec where
  image_source : String
  dithering_algorithm : String
  is_active : Bool
  is_paused : Bool
  strip_width : Nat
  total_strips : Nat
deriving DecidableEq, Repr

/-- The whole sqlite database owned by `DatabaseManager`. -/
structure DBState where
  project : Option ProjectRec
  blocks : List BlockRec
  strips : List StripRec
deriving DecidableEq, Repr

/-- One entry of `imageData[z][x]` as consumed by `startNewMapArt`
(`block.name`, `block.id`). -/
structure GridCell where
  name : String
  id : String
deriving DecidableEq, Repr

/-- Embedding of `clearProject`: `DELETE FROM strips; DELETE FROM blocks; DELETE FROM project;`. -/
def clearProject (_db : DBState) : DBState :=
  { project := none, blocks := [], strips := [] }

/-- Embedding of `Math.ceil(128 / stripWidth)` for a positive integer `stripWidth`. -/
def totalStripsFor (stripWidth : Nat) : Nat :=
  (128 + stripWidth - 1) / stripWidth

/-- The block-insert double loop of `startNewMapArt`:
`for z in 0..127: for x in 0..127: INSERT (x, z, name, id, 0)`. -/
def initialBlocks (grid : Nat → Nat → GridCell) : List BlockRec :=
  (List.range 128).flatMap fun z =>
    (List.range 128).map fun x =>
      { x := x, z := z, color_name := (grid z x).name, item_id := (grid z x).id,
        is_placed := false }

/-- Embedding of `startNewMapArt(imageSource, dithering, imageData, stripWidth)`: clears the
project, inserts the project row (active, unpaused), all 128x128 block rows
(unplaced), and `totalStrips` strip rows (each defaulting to
`status='pending', assigned_to=NULL, assigned_at=NULL`). -/
def startNewMapArt (imageSource dithering : String) (grid : Nat → Nat → GridCell)
    (stripWidth : Nat) (db : DBState) : DBState :=
  let db0 := clearProject db
  { db0 with
    project := some
      { image_source := imageSource, dithering_algorithm := dithering,
        is_active := true, is_paused := false,
        strip_width := stripWidth, total_strips := totalStripsFor stripWidth },
    blocks := initialBlocks grid,
    strips := List.replicate (totalStripsFor stripWidth)
      { status := .pending, assigned_to := none, assigned_at := none } }

/-- Embedding of `setPaused(isPaused)`: `UPDATE project SET is_paused = ? WHERE id = 1`. -/
def setPaused (isPaused : Bool) (db : DBState) : DBState :=
  { db with project := db.project.map fun p => { p with is_paused := isPaused } }

/-- The `SELECT strip_index FROM strips WHERE status = 'pending'
ORDER BY strip_index ASC LIMIT 1` of `claimStrip`. -/
def selectPending : List StripRec → Option Nat
  | [] => none
  | s :: rest =>
    if s.status = .pending then some 0 else (selectPending rest).map (· + 1)

/-- The conditional `UPDATE strips SET status='assigned', assigned_to=?,
assigned_at=CURRENT_TIMESTAMP WHERE strip_index = ? AND status = 'pending'`
of `claimStrip` (`t` stands for `CURRENT_TIMESTAMP`). -/
def condAssign (i : Nat) (w : String) (t : Nat) (strips : List StripRec) :
    List StripRec :=
  List.modify
    (fun s =>
      if s.status = .pending then
        { status := .assigned, assigned_to := some w, assigned_at := some t }
      else s) i strips

/-- The confirming re-read `SELECT assigned_to FROM strips WHERE strip_index = ?`
of `claimStrip`. -/
def readAssigned (i : Nat) (strips : List StripRec) : Option String :=
  strips[i]?.bind fun s => s.assigned_to

/-- Embedding of `claimStrip(botUsername)` run without interference from other workers:
select the lowest pending strip (return null when none), conditionally assign
it, re-read `assigned_to` and return the index only on a match. -/
def claimStrip (w : String) (t : Nat) (db : DBState) : Option Nat × DBState :=
  match selectPending db.strips with
  | none => (none, db)
  | some i =>
    let strips' := condAssign i w t db.strips
    ((if readAssigned i strips' = some w then some i else none),
     { db with strips := strips' })

/-- Row overwrite performed by `releaseStrip`:
`SET status='pending', assigned_to=NULL, assigned_at=NULL`. -/
def releaseRow (_s : StripRec) : StripRec :=
  { status := .pending, assigned_to := none, assigned_at := none }

/-- Embedding of `releaseStrip(stripIndex)`: unconditional update of the row. -/
def releaseStrip (i : Nat) (db : DBState) : DBState :=
  { db with strips := List.modify releaseRow i db.strips }

/-- Row update performed by `completeStrip`: `SET status='completed'`
(the other columns are untouched). -/
def completeRow (s : StripRec) : StripRec := { s with status := .completed }

/-- Embedding of `completeStrip(stripIndex)`: `UPDATE strips SET status='completed'
WHERE strip_index = ?` (touches only the status column). -/
def completeStrip (i : Nat) (db : DBState) : DBState :=
  { db with strips := List.modify completeRow i db.strips }

/-- Row update performed by `updateBlockPlaced` on the rows matching the
`WHERE x = ? AND z = ?` clause. -/
def placedRow (x z : Nat) (b : BlockRec) : BlockRec :=
  if b.x = x ∧ b.z = z then { b with is_placed := true } else b

/-- Embedding of `updateBlockPlaced(x, z)`: `UPDATE blocks SET is_placed = 1
WHERE x = ? AND z = ?`. -/
def updateBlockPlaced (x z : Nat) (db : DBState) : DBState :=
  { db with blocks := db.blocks.map (placedRow x z) }

/-- One unplaced cell as returned by `getPlacementsForStrip`
(`SELECT x, z, color_name, item_id`). -/
structure Placement where
  x : Nat
  z : Nat
  color_name : String
  item_id : String
deriving DecidableEq, Repr

/-- Embedding of `getPlacementsForStrip(stripIndex)`: unplaced blocks whose `z` lies in
`[stripIndex * strip_width, min(stripIndex * strip_width + strip_width, 128))`;
returns `[]` when there is no project row. -/
def getPlacementsForStrip (stripIndex : Nat) (db : DBState) : List Placement :=
  match db.project with
  | none => []
  | some p =>
    let startZ := stripIndex * p.strip_width
    let endZ := min (startZ + p.strip_width) 128
    (db.blocks.filter fun b =>
        decide (startZ ≤ b.z) && decide (b.z < endZ) && !b.is_placed).map
      fun b => { x := b.x, z := b.z, color_name := b.color_name, item_id := b.item_id }

/-- Result record of `getCompletionStats` (present only when a project row
exists; `total_blocks` is the hardcoded `128 * 128` of the source). -/
structure Stats where
  total_blocks : Nat
  placed_blocks : Nat
  total_strips : Nat
  pending_strips : Nat
  assigned_strips : Nat
  completed_strips : Nat
deriving DecidableEq, Repr

/-- Embedding of `getCompletionStats()`: the five COUNT subqueries plus the project row. -/
def getCompletionStats (db : DBState) : Option Stats :=
  match db.project with
  | none => none
  | some p => some
    { total_blocks := 128 * 128,
      placed_blocks := (db.blocks.filter fun b => b.is_placed).length,
      total_strips := p.total_strips,
      pending_strips := (db.strips.filter fun s => s.status = .pending).length,
      assigned_strips := (db.strips.filter fun s => s.status = .assigned).length,
      completed_strips := (db.strips.filter fun s => s.status = .completed).length }

/-- Status of strip `i` as recorded in the ledger. -/
def statusAt (i : Nat) (db : DBState) : Option StripStatus :=
  db.strips[i]?.map fun s => s.status

/-!
`StripPlacer` (final version, src/config/mapart_offsets.js lines 1184-1378).
-/

/-- Comparator `(a, b) => a.z - b.z` of the per-row sort, as the relation it
sorts by. -/
def zLE (a b : Placement) : Prop := a.z ≤ b.z

instance : DecidableRel zLE := fun a b => Nat.decLe a.z b.z

instance : IsTotal Placement zLE := ⟨fun a b => Nat.le_total a.z b.z⟩

instance : IsTrans Placement zLE := ⟨fun _ _ _ => Nat.le_trans⟩

/-- Distinct row keys of `_groupIntoFourRowBatches`: the placements are grouped
into a JS object keyed by `p.x` and `Object.keys(rows).sort((a, b) => a - b)`
yields the distinct `x` values in ascending numeric order (modelled with a
stable structural sort, as JS `Array.prototype.sort` is stable). -/
def rowKeys (ps : List Placement) : List Nat :=
  List.insertionSort (· ≤ ·) ((ps.map fun p => p.x).dedup)

/-- One grouped row of `_groupIntoFourRowBatches`:
`rows[k].sort((a, b) => a.z - b.z)` — the placements with `x = k`, in their
original order, stably sorted by `z` ascending. -/
def rowOf (ps : List Placement) (k : Nat) : List Placement :=
  List.insertionSort zLE (ps.filter fun p => p.x == k)

/-- The `for (i = 0; i < keys.length; i += 4)` chunking of the sorted row keys:
groups of 4 consecutive keys, the last group possibly shorter. -/
def chunkFour : List α → List (List α)
  | [] => []
  | [a] => [[a]]
  | [a, b] => [[a, b]]
  | [a, b, c] => [[a, b, c]]
  | a :: b :: c :: d :: rest => [a, b, c, d] :: chunkFour rest

/-- Embedding of `_groupIntoFourRowBatches(placements)`: each batch is the concatenation of
up to 4 consecutive rows (each row sorted by `z`). -/
def groupIntoFourRowBatches (ps : List Placement) : List (List Placement) :=
  (chunkFour (rowKeys ps)).map fun ks => ks.flatMap (rowOf ps)

/-- World coordinates (mineflayer `Vec3` restricted to the integer block grid
used by the placer). -/
structure Vec3 where
  x : Int
  y : Int
  z : Int
deriving DecidableEq, Repr

/-- Embedding of `mapArtOffsets.start` from src/config/mapart_offsets.js. -/
def mapArtOrigin : Vec3 := ⟨63, 281, 575⟩

/-- Embedding of `mapArtOffsets.offsets.end` from src/config/mapart_offsets.js. -/
def offsetsEnd : Vec3 := ⟨-127, 0, -127⟩

/-- Embedding of `this.minBound = this.mapArtOrigin.plus(offsets.end)`. -/
def minBound : Vec3 :=
  ⟨mapArtOrigin.x + offsetsEnd.x, mapArtOrigin.y + offsetsEnd.y,
   mapArtOrigin.z + offsetsEnd.z⟩

/-- Embedding of `this.maxBound = this.mapArtOrigin`. -/
def maxBound : Vec3 := mapArtOrigin

/-- The fields of a mineflayer block that the stand-position search reads:
`name` and `boundingBox`. -/
structure BlockInfo where
  name : String
  boundingBox : String
deriving DecidableEq, Repr

/-- The world as read through `bot.blockAt` (`none` models a null block). -/
def World := Vec3 → Option BlockInfo

/-- The inclusive integer range `lo..hi` (empty when `hi < lo`). -/
def rangeInts (lo hi : Int) : List Int :=
  (List.range (hi + 1 - lo).toNat).map fun k => lo + k

/-- World position of a placement:
`this.mapArtOrigin.offset(-placement.x, 0, -placement.z)`. -/
def targetPosOf (p : Placement) : Vec3 :=
  ⟨mapArtOrigin.x - p.x, mapArtOrigin.y, mapArtOrigin.z - p.z⟩

/-- Bounds check of a stand candidate: inside `[minBound, maxBound]` on x and z. -/
def inBounds (c : Vec3) : Bool :=
  decide (minBound.x ≤ c.x) && decide (c.x ≤ maxBound.x) &&
  decide (minBound.z ≤ c.z) && decide (c.z ≤ maxBound.z)

/-- JavaScript `name.endsWith(post)` on the character lists of the strings. -/
def strEndsWith (s post : String) : Bool :=
  List.isSuffixOf post.data s.data

/-- Footprint check of a stand candidate: foot block empty or a carpet, head
block empty (both must be loaded). -/
def standable (world : World) (c : Vec3) : Bool :=
  match world c, world ⟨c.x, c.y + 1, c.z⟩ with
  | some footBlock, some headBlock =>
    (footBlock.boundingBox == "empty" || strEndsWith footBlock.name "_carpet")
      && headBlock.boundingBox == "empty"
  | _, _ => false

/-- Reach check `candidate.distanceTo(targetPos) <= 4.5`: with integer
coordinates the squared distance is an integer, and `d ≤ 4.5` iff
`d² ≤ 20.25` iff `d² ≤ 20`. -/
def reachable (c : Vec3) (p : Placement) : Bool :=
  let t := targetPosOf p
  let dx := c.x - t.x
  let dy := c.y - t.y
  let dz := c.z - t.z
  decide (dx * dx + dy * dy + dz * dz ≤ 20)

/-- Candidate stand positions of `findSafeStandPosForBatch`: the 1-wide
perimeter of the batch's world-space bounding box, pushed in source order
(for each x the north then south edge, then for each z the west then east
edge). -/
def standCandidates (minWX maxWX minWZ maxWZ : Int) : List Vec3 :=
  ((rangeInts (minWX - 1) (maxWX + 1)).flatMap fun x =>
    [⟨x, mapArtOrigin.y, minWZ - 1⟩, ⟨x, mapArtOrigin.y, maxWZ + 1⟩])
  ++ ((rangeInts (minWZ - 1) (maxWZ + 1)).flatMap fun z =>
    [⟨minWX - 1, mapArtOrigin.y, z⟩, ⟨maxWX + 1, mapArtOrigin.y, z⟩])

/-- Embedding of `findSafeStandPosForBatch(batch)`: first candidate that is in bounds,
standable, and within reach of every cell of the batch; `null` when the batch
is empty or no candidate qualifies. -/
def findSafeStandPosForBatch (world : World) (batch : List Placement) :
    Option Vec3 :=
  match batch with
  | [] => none
  | b :: bs =>
    let minX : Nat := bs.foldl (fun m p => min m p.x) b.x
    let maxX : Nat := bs.foldl (fun m p => max m p.x) b.x
    let minZ : Nat := bs.foldl (fun m p => min m p.z) b.z
    let maxZ : Nat := bs.foldl (fun m p => max m p.z) b.z
    let minWX : Int := mapArtOrigin.x - maxX
    let maxWX : Int := mapArtOrigin.x - minX
    let minWZ : Int := mapArtOrigin.z - maxZ
    let maxWZ : Int := mapArtOrigin.z - minZ
    (standCandidates minWX maxWX minWZ maxWZ).find? fun c =>
      inBounds c && standable world c && (b :: bs).all (reachable c)

/-- Outcome of one try-block body in `placeBatchFromPosition`: `ok` covers
both exits that call `updateBlockPlaced` (block already correct, or dig /
equip / place succeeded); `err` covers any thrown error (lookAt, dig, missing
or unequippable item, unloaded reference block, placeBlock), all caught by the
catch clause. -/
inductive AttemptResult where
  | ok
  | err
deriving DecidableEq, Repr

/-- Oracle for the external world effects of one placement attempt: outcome
for the cell at `(x, z)` on attempt number `n` (0-based). -/
def AttemptOracle := Nat → Nat → Nat → AttemptResult

/-- Observable log events of the placement engine (console output and waits). -/
inductive PlaceEv where
  | attempt (x z n : Nat)
  | waitRetry (x z : Nat)
  | skipCell (x z : Nat)
  | skipBatchLog
  | stoppedLog
deriving DecidableEq, Repr

/-- The per-cell retry loop `while (retryCount < maxRetries)` of
`placeBatchFromPosition`, with `maxRetries = 3`: on `ok` mark the block placed
and break; on a caught error either log the skip (3rd failure) or wait 10
ticks and retry.  The fuel argument is `maxRetries - retryCount`. -/
def placeCellGo (oracle : AttemptOracle) (p : Placement) :
    Nat → Nat → DBState → DBState × List PlaceEv
  | 0, _, db => (db, [])
  | _fuel + 1, retry, db =>
    match oracle p.x p.z retry with
    | .ok => (updateBlockPlaced p.x p.z db, [.attempt p.x p.z retry])
    | .err =>
      if retry + 1 ≥ 3 then
        (db, [.attempt p.x p.z retry, .skipCell p.x p.z])
      else
        let r := placeCellGo oracle p _fuel (retry + 1) db
        (r.1, .attempt p.x p.z retry :: .waitRetry p.x p.z :: r.2)

/-- Processing of one cell of a batch (retry loop entered with
`retryCount = 0`). -/
def placeCell (oracle : AttemptOracle) (p : Placement) (db : DBState) :
    DBState × List PlaceEv :=
  placeCellGo oracle p 3 0 db

/-- The stop flag: `stop()` sets `isStopped` once and it is never cleared
during a run, so `isStopped` reads true exactly at the flag checks numbered
`≥ k` for some `k` (`none` when `stop()` is never called).  The
`while (isPaused && !isStopped)` wait loops change no modelled state and are
elided: each exits when the pause is lifted or the stop lands, and the next
flag check observes the outcome. -/
def stoppedAt (stopFrom : Option Nat) (t : Nat) : Bool :=
  match stopFrom with
  | none => false
  | some k => decide (k ≤ t)

/-- The cell loop of `placeBatchFromPosition(batch, standPos)`: per cell, one
`isStopped` check (check counter `t`), then the retry loop.  The leading
`pathfinder.goto(standPos)` is an external movement whose failure is not
caught by this method; it is modelled as succeeding. -/
def placeBatchGo (oracle : AttemptOracle) (stopFrom : Option Nat) :
    List Placement → DBState → Nat → DBState × Nat × List PlaceEv
  | [], db, t => (db, t, [])
  | p :: ps, db, t =>
    if stoppedAt stopFrom t then (db, t + 1, [])
    else
      let c := placeCell oracle p db
      let r := placeBatchGo oracle stopFrom ps c.1 (t + 1)
      (r.1, r.2.1, c.2 ++ r.2.2)

/-- The batch loop of `buildCurrentStrip`: per batch, one `isStopped` check
(returning `false` from the whole method when it fires), then the anchor
search; a batch with no safe stand position is logged and skipped
(`continue`), otherwise it is placed from the found position.  The Bool in
the result records whether the loop exited through the stop branch. -/
def buildLoop (world : World) (oracle : AttemptOracle) (stopFrom : Option Nat) :
    List (List Placement) → DBState → Nat → Bool × DBState × Nat × List PlaceEv
  | [], db, t => (false, db, t, [])
  | batch :: rest, db, t =>
    if stoppedAt stopFrom t then (true, db, t + 1, [.stoppedLog])
    else
      match findSafeStandPosForBatch world batch with
      | none =>
        let r := buildLoop world oracle stopFrom rest db (t + 1)
        (r.1, r.2.1, r.2.2.1, .skipBatchLog :: r.2.2.2)
      | some _standPos =>
        let c := placeBatchGo oracle stopFrom batch db (t + 1)
        let r := buildLoop world oracle stopFrom rest c.1 c.2.1
        (r.1, r.2.1, r.2.2.1, c.2.2 ++ r.2.2.2)

/-- Embedding of `buildCurrentStrip(stripIndex)`: query the strip's unplaced cells (empty →
report complete immediately), group them into batches, run the batch loop
(stop → report not complete), then re-query and report whether the strip has
zero unplaced cells left. -/
def buildCurrentStrip (world : World) (oracle : AttemptOracle)
    (stopFrom : Option Nat) (stripIndex : Nat) (db : DBState) :
    Bool × DBState × List PlaceEv :=
  let placements := getPlacementsForStrip stripIndex db
  if placements.length = 0 then (true, db, [])
  else
    let batches := groupIntoFourRowBatches placements
    let r := buildLoop world oracle stopFrom batches db 0
    if r.1 then (false, r.2.1, r.2.2.2)
    else
      let remaining := getPlacementsForStrip stripIndex r.2.1
      (remaining.length == 0, r.2.1, r.2.2.2)

/-- The per-spec fallback of the specification text: search a 4-neighbor ring
around a single target position for a safe stand position (this mirrors the
`findSafeStandPos` of the superseded StripPlacer version; the final
StripPlacer cited by the spec has no such fallback).  Used only to compare
behaviors. -/
def specFallbackStandPos (world : World) (targetPos : Vec3) : Option Vec3 :=
  ([⟨0, 0, 1⟩, ⟨0, 0, -1⟩, ⟨1, 0, 0⟩, ⟨-1, 0, 0⟩] : List Vec3).findSome? fun o =>
    let standPos : Vec3 := ⟨targetPos.x + o.x, targetPos.y + o.y, targetPos.z + o.z⟩
    if inBounds standPos && standable world standPos then some standPos else none

/-!
`MapArtBot.mainLoop`'s BUILDING branch (src/config/mapart_offsets.js
lines 159-183) and `getRequiredMaterialsForStrip`.
-/

/-- One step of building `requiredMaterials`:
`requiredMaterials[id] = (requiredMaterials[id] || 0) + 1` on a JS object,
modelled as an association list in key-insertion order. -/
def bumpKey (id : String) : List (String × Nat) → List (String × Nat)
  | [] => [(id, 1)]
  | (k, n) :: rest =>
    if k = id then (k, n + 1) :: rest else (k, n) :: bumpKey id rest

/-- Embedding of `getRequiredMaterialsForStrip(stripIndex)`: tally of `item_id` over the
strip's unplaced cells. -/
def getRequiredMaterialsForStrip (stripIndex : Nat) (db : DBState) :
    List (String × Nat) :=
  (getPlacementsForStrip stripIndex db).foldl (fun acc p => bumpKey p.item_id acc) []

/-- Outcome of one BUILDING-state tick of `mainLoop`. -/
inductive TickResult where
  | completedStrip
  | toRestocking
  | keptBuilding
deriving DecidableEq, Repr

/-- The BUILDING branch of `mainLoop`: if the held strip needs no materials it
is completed at once; else without sufficient inventory (`_hasMaterials`,
an inventory read modelled by the Bool `hasMats`) switch to RESTOCKING; else
run one `buildCurrentStrip` pass and call `completeStrip` exactly when it
returned true. -/
def buildingTick (world : World) (oracle : AttemptOracle) (stopFrom : Option Nat)
    (hasMats : Bool) (stripIndex : Nat) (db : DBState) : TickResult × DBState :=
  let required := getRequiredMaterialsForStrip stripIndex db
  if required.isEmpty then (.completedStrip, completeStrip stripIndex db)
  else if !hasMats then (.toRestocking, db)
  else
    let r := buildCurrentStrip world oracle stopFrom stripIndex db
    if r.1 then (.completedStrip, completeStrip stripIndex r.2.1)
    else (.keptBuilding, r.2.1)

/-!
`Restocker` (src/config/mapart_offsets.js lines 483-653).
-/

/-- Embedding of `this.restockOrder` of the Restocker constructor. -/
def restockOrder : List String :=
  ["white", "light_gray", "gray", "black", "brown", "red", "orange", "yellow",
   "lime", "green", "cyan", "light_blue", "blue", "purple", "magenta", "pink"]

/-- Embedding of `COLOR_MAP` of ImageProcessor restricted to the `id` field (color key →
carpet item id). -/
def COLOR_MAP_ids : List (String × String) :=
  [("white", "white_carpet"), ("light_gray", "light_gray_carpet"),
   ("gray", "gray_carpet"), ("black", "black_carpet"),
   ("brown", "brown_carpet"), ("red", "red_carpet"),
   ("orange", "orange_carpet"), ("yellow", "yellow_carpet"),
   ("lime", "lime_carpet"), ("green", "green_carpet"),
   ("cyan", "cyan_carpet"), ("light_blue", "light_blue_carpet"),
   ("blue", "blue_carpet"), ("purple", "purple_carpet"),
   ("magenta", "magenta_carpet"), ("pink", "pink_carpet")]

/-- Embedding of `ImageProcessor.COLOR_MAP[colorKey]?.id` (the restock order's entries are
already underscored, so `colorName.replace(' ', '_')` is the identity on
them). -/
def colorItemId (c : String) : Option String :=
  (COLOR_MAP_ids.find? fun e => e.1 == c).map fun e => e.2

/-- One occupied chest slot as seen through the chest window. -/
structure ChestSlot where
  item : String
  count : Nat
deriving DecidableEq, Repr

/-- The fixed-location stores: `chestAt c y` is the chest `y` blocks above the
base chest position configured for color `c` (`none` models "no chest found at
location", which makes `withdrawFromChest` throw before opening anything);
`hasChestOffset c` is whether `mapArtOffsets.offsets[c]` exists and is
non-empty. -/
structure StoreEnv where
  chestAt : String → Nat → Option (List ChestSlot)
  hasChestOffset : String → Bool

/-- The slot scan inside `withdrawFromChest`: walk the (at most 54) chest
slots, withdraw `min(slot count, remaining need)` from each matching slot, and
break once the need is met. -/
def withdrawFromSlots (itemId : String) : List ChestSlot → Nat → Nat
  | [], _ => 0
  | s :: rest, need =>
    if s.item == itemId then
      let take := min s.count need
      if need ≤ take then take
      else take + withdrawFromSlots itemId rest (need - take)
    else withdrawFromSlots itemId rest need

/-- Embedding of `withdrawFromChest(chestPos, itemName, count)`: `none` models the thrown
"No chest found at location." (and any other failure that aborts before
withdrawing); otherwise the amount withdrawn. -/
def withdrawFromChest (env : StoreEnv) (c : String) (y : Nat) (itemId : String)
    (count : Nat) : Option Nat :=
  match env.chestAt c y with
  | none => none
  | some slots => some (withdrawFromSlots itemId slots count)

/-- The `for (yOffset = 0; yOffset < 5; yOffset++)` chest-column scan of
`restock`: break when the need is already met, break on a thrown error,
otherwise accumulate the withdrawal.  Returns the amount found and the number
of chests opened. -/
def scanChests (env : StoreEnv) (c itemId : String) (amountNeeded : Nat) :
    List Nat → Nat → Nat × Nat
  | [], found => (found, 0)
  | y :: ys, found =>
    if amountNeeded ≤ found then (found, 0)
    else
      match withdrawFromChest env c y itemId (amountNeeded - found) with
      | none => (found, 0)
      | some w =>
        let r := scanChests env c itemId amountNeeded ys (found + w)
        (r.1, r.2 + 1)

/-- The color loop of `restock(requiredItems)`: visit the colors in
`restockOrder`; skip a color whose item is not required; a color without a
configured chest offset marks the round failed; otherwise scan its chest
column and record the amount found, marking the round failed on a shortfall
but continuing with the remaining colors.  Returns `allItemsFound` and the
`(item_id, amountFound)` list of the attempted colors in visit order. -/
def restockGo (env : StoreEnv) (required : String → Nat) :
    List String → Bool × List (String × Nat)
  | [] => (true, [])
  | c :: cs =>
    match colorItemId c with
    | none => restockGo env required cs
    | some itemId =>
      if required itemId = 0 then restockGo env required cs
      else if !env.hasChestOffset c then
        let r := restockGo env required cs
        (false, r.2)
      else
        let found := (scanChests env c itemId (required itemId) [0, 1, 2, 3, 4] 0).1
        let r := restockGo env required cs
        (decide (required itemId ≤ found) && r.1, (itemId, found) :: r.2)

/-- The item ids of the materials that a restock round attempts, in visit
order: the colors of the store order whose item is required. -/
def requiredIds (required : String → Nat) (colors : List String) : List String :=
  colors.filterMap fun c =>
    match colorItemId c with
    | none => none
    | some id => if required id = 0 then none else some id

/-- Embedding of `discardInventory()`: every held stack is tossed, leaving the inventory
empty. -/
def discardInventory (_inv : String → Nat) : String → Nat := fun _ => 0

/-- Total amount of `id` recorded in the withdrawal list. -/
def amountIn (log : List (String × Nat)) (id : String) : Nat :=
  ((log.filter fun e => e.1 == id).map fun e => e.2).sum

/-- Embedding of `restock(requiredItems)` together with the bot inventory it produces:
discard the whole held inventory first, then run the color loop; the final
inventory holds exactly what was withdrawn. -/
def restockRun (inv : String → Nat) (env : StoreEnv) (required : String → Nat) :
    Bool × (String → Nat) :=
  let inv0 := discardInventory inv
  let r := restockGo env required restockOrder
  (r.1, fun id => inv0 id + amountIn r.2 id)

/-!
Concurrency model for `claimStrip`.  A claim call is three ledger
transactions — the pending-strip SELECT, the conditional UPDATE, and the
confirming re-read — and sqlite serializes the transactions of concurrent
workers, so a concurrent run is an arbitrary interleaving of these atomic
micro-steps with releases and completes.  Each worker process is sequential,
so a worker has at most one claim call in flight (tracked by its phase).
-/

/-- Progress of one worker's in-flight `claimStrip` call. -/
inductive Phase where
  | idle
  | selected (i : Nat)
  | updated (i : Nat)
deriving DecidableEq, Repr

/-- Shared ledger strips plus the per-worker claim-call phases. -/
structure Sys where
  strips : List StripRec
  phase : String → Phase

/-- Atomic ledger micro-events: the three steps of a `claimStrip` call by
worker `w` (with `t` the `CURRENT_TIMESTAMP` of the UPDATE), and
`releaseStrip` / `completeStrip` on strip `i`. -/
inductive Ev where
  | selectEv (w : String)
  | updateEv (w : String) (t : Nat)
  | confirmEv (w : String)
  | releaseEv (i : Nat)
  | completeEv (i : Nat)
deriving DecidableEq, Repr

/-- State transition of one micro-event (an event that is not enabled for the
worker's current phase leaves the state unchanged). -/
def stepSys (s : Sys) (e : Ev) : Sys :=
  match e with
  | .selectEv w =>
    match s.phase w with
    | .idle =>
      match selectPending s.strips with
      | none => s
      | some i => { s with phase := fun v => if v = w then .selected i else s.phase v }
    | _ => s
  | .updateEv w t =>
    match s.phase w with
    | .selected i =>
      { strips := condAssign i w t s.strips,
        phase := fun v => if v = w then .updated i else s.phase v }
    | _ => s
  | .confirmEv w =>
    match s.phase w with
    | .updated _ => { s with phase := fun v => if v = w then .idle else s.phase v }
    | _ => s
  | .releaseEv i => { s with strips := List.modify releaseRow i s.strips }
  | .completeEv i => { s with strips := List.modify completeRow i s.strips }

/-- Return value produced by a micro-event, when it finishes a `claimStrip`
call: a select finding no pending strip returns null at once; the confirming
re-read returns the strip index when `assigned_to` matches the caller and
null otherwise. -/
def emitOf (s : Sys) (e : Ev) : Option (String × Option Nat) :=
  match e with
  | .selectEv w =>
    match s.phase w with
    | .idle =>
      match selectPending s.strips with
      | none => some (w, none)
      | some _ => none
    | _ => none
  | .confirmEv w =>
    match s.phase w with
    | .updated i =>
      some (w, if readAssigned i s.strips = some w then some i else none)
    | _ => none
  | _ => none

/-- Run a list of micro-events from a state. -/
def runState (s : Sys) : List Ev → Sys
  | [] => s
  | e :: es => runState (stepSys s e) es

/-- The ledger state right after `startNewMapArt` with `n` strips, all workers
idle. -/
def initSys (n : Nat) : Sys :=
  { strips := List.replicate n { status := .pending, assigned_to := none, assigned_at := none },
    phase := fun _ => .idle }

/-- Ledger invariant: a strip with a non-null `assigned_to` is never
`pending` (the conditional UPDATE only fires on pending rows and sets both
columns; a release clears both). -/
def stripInv (strips : List StripRec) : Prop :=
  ∀ r ∈ strips, r.assigned_to ≠ none → r.status ≠ .pending

/-!
Concrete objects used by witnesses and counterexamples.
-/

/-- A sample project row (strip width 4, as configured by `mapArtOffsets.width`). -/
def exProject : ProjectRec :=
  { image_source := "image.png", dithering_algorithm := "floyd_steinberg",
    is_active := true, is_paused := false, strip_width := 4, total_strips := 32 }

/-- A sample quantized grid: every cell white carpet. -/
def exGrid : Nat → Nat → GridCell := fun _ _ => { name := "white", id := "white_carpet" }

/-- A ledger whose single strip is completed and still carries its assignee. -/
def dbCompletedOne : DBState :=
  { project := none, blocks := [],
    strips := [{ status := .completed, assigned_to := some "worker1", assigned_at := some 5 }] }

/-- A ledger with two pending strips. -/
def dbTwoPending : DBState :=
  { project := none, blocks := [],
    strips := List.replicate 2 { status := .pending, assigned_to := none, assigned_at := none } }

/-- A world of solid stone: no stand position qualifies anywhere. -/
def solidWorld : World := fun _ => some { name := "stone", boundingBox := "block" }

/-- A world where every perimeter position of the example batch is blocked but
the position between its two rows (adjacent to the first cell) is open. -/
def cexWorld : World := fun v =>
  if v = (⟨62, 281, 575⟩ : Vec3) ∨ v = (⟨62, 282, 575⟩ : Vec3) then
    some { name := "air", boundingBox := "empty" }
  else some { name := "stone", boundingBox := "block" }

/-- First cell of the counterexample batch (rows x = 0 and x = 2). -/
def cexCellA : Placement := { x := 0, z := 0, color_name := "white", item_id := "white_carpet" }

/-- Second cell of the counterexample batch. -/
def cexCellB : Placement := { x := 2, z := 0, color_name := "white", item_id := "white_carpet" }

/-- Ledger holding exactly the two counterexample cells, unplaced, in strip 0. -/
def cexDb : DBState :=
  { project := some exProject,
    blocks :=
      [{ x := 0, z := 0, color_name := "white", item_id := "white_carpet", is_placed := false },
       { x := 2, z := 0, color_name := "white", item_id := "white_carpet", is_placed := false }],
    strips := List.replicate 32 { status := .pending, assigned_to := none, assigned_at := none } }

/-- Ledger holding one unplaced cell in strip 0. -/
def dbOneCell : DBState :=
  { project := some exProject,
    blocks := [{ x := 0, z := 0, color_name := "white", item_id := "white_carpet", is_placed := false }],
    strips := List.replicate 32 { status := .pending, assigned_to := none, assigned_at := none } }

/-- Ledger whose single cell in strip 0 is already placed. -/
def dbOneDone : DBState :=
  { project := some exProject,
    blocks := [{ x := 0, z := 0, color_name := "white", item_id := "white_carpet", is_placed := true }],
    strips := List.replicate 32 { status := .pending, assigned_to := none, assigned_at := none } }

/-- Oracle under which every placement attempt succeeds. -/
def okOracle : AttemptOracle := fun _ _ _ => .ok

/-- Oracle under which every attempt at cell (0, 0) throws and all others
succeed. -/
def failAtOrigin : AttemptOracle := fun x z _ => if x == 0 && z == 0 then .err else .ok

/-- A store with a single white-carpet chest column (base chest holding a
2-stack, a foreign stack and a 64-stack). -/
def exStoreEnv : StoreEnv :=
  { chestAt := fun c y =>
      if c == "white" && y == 0 then
        some [{ item := "white_carpet", count := 2 }, { item := "cobblestone", count := 5 },
              { item := "white_carpet", count := 64 }]
      else none,
    hasChestOffset := fun _ => true }

/-- A requirement of 3 white carpets. -/
def exRequired : String → Nat := fun id => if id == "white_carpet" then 3 else 0

/-- The scenario of the spec's testable property: 3 unplaced cells in 2
distinct rows. -/
def ps3cells : List Placement :=
  [{ x := 0, z := 1, color_name := "white", item_id := "white_carpet" },
   { x := 2, z := 0, color_name := "white", item_id := "white_carpet" },
   { x := 0, z := 0, color_name := "white", item_id := "white_carpet" }]

/-- Micro-event prefix in which worker alice selects and conditionally
assigns strip 0. -/
def claimTrace1 : List Ev := [.selectEv "alice", .updateEv "alice" 0]

/-- Micro-events in which strip 0 is released and worker bob selects and
conditionally assigns it. -/
def claimTrace2 : List Ev := [.releaseEv 0, .selectEv "bob", .updateEv "bob" 1]

/-!
General helper lemmas.
-/

theorem getElem?_modify_self {α : Type} (f : α → α) (i : Nat) (l : List α) :
    (List.modify f i l)[i]? = l[i]?.map f := by
  simp [List.getElem?_modify, Option.map_eq_map]

theorem getElem?_modify_ne {α : Type} (f : α → α) {i j : Nat} (h : i ≠ j)
    (l : List α) : (List.modify f i l)[j]? = l[j]? := by
  simp [List.getElem?_modify, h]

theorem mem_of_getElem?_eq_some {α : Type} {l : List α} {i : Nat} {a : α}
    (h : l[i]? = some a) : a ∈ l := by
  rw [List.getElem?_eq_some] at h
  obtain ⟨hi, rfl⟩ := h
  exact List.getElem_mem hi

theorem modify_idem {α : Type} {f : α → α} (hf : ∀ a, f (f a) = f a)
    (i : Nat) (l : List α) :
    List.modify f i (List.modify f i l) = List.modify f i l := by
  apply List.ext_getElem?
  intro n
  by_cases hn : i = n
  · subst hn
    simp [getElem?_modify_self]
    cases l[i]? with
    | none => rfl
    | some a => simp [hf]
  · simp [getElem?_modify_ne f hn]

theorem selectPending_eq_some {l : List StripRec} {j : Nat}
    (h : selectPending l = some j) :
    ∃ s, l[j]? = some s ∧ s.status = .pending := by
  induction l generalizing j with
  | nil => simp [selectPending] at h
  | cons a l ih =>
    by_cases ha : a.status = .pending
    · simp [selectPending, ha] at h
      exact h ▸ ⟨a, by simp, ha⟩
    · simp [selectPending, ha] at h
      obtain ⟨j', hj', rfl⟩ := h
      obtain ⟨s, hs, hp⟩ := ih hj'
      exact ⟨s, by simpa using hs, hp⟩

theorem selectPending_of_mem {l : List StripRec} {s : StripRec}
    (hs : s ∈ l) (hp : s.status = .pending) :
    ∃ j, selectPending l = some j := by
  induction l with
  | nil => cases hs
  | cons a l ih =>
    by_cases ha : a.status = .pending
    · exact ⟨0, by simp [selectPending, ha]⟩
    · rcases List.mem_cons.mp hs with rfl | hs'
      · exact absurd hp ha
      · obtain ⟨j, hj⟩ := ih hs'
        exact ⟨j + 1, by simp [selectPending, ha, hj]⟩

theorem placedRow_idem (x z : Nat) (b : BlockRec) :
    placedRow x z (placedRow x z b) = placedRow x z b := by
  by_cases h : b.x = x ∧ b.z = z <;> simp [placedRow, h]

theorem range_filter_beq {n x : Nat} (hx : x < n) :
    (List.range n).filter (fun y => y == x) = [x] := by
  induction n with
  | zero => omega
  | succ n ih =>
    rw [List.range_succ, List.filter_append]
    by_cases h : x < n
    · rw [ih h]
      have hne : (n == x) = false := by simp; omega
      simp [hne]
    · have hxn : x = n := by omega
      subst hxn
      have h0 : (List.range x).filter (fun y => y == x) = [] := by
        rw [List.filter_eq_nil_iff]
        intro a ha
        simp at ha ⊢
        omega
      simp [h0]

theorem flatMap_eq_single {α : Type} {l : List Nat} {g : Nat → List α} {z : Nat}
    {blk : α} (hnd : l.Nodup) (hz : z ∈ l) (hg : g z = [blk])
    (h0 : ∀ y ∈ l, y ≠ z → g y = []) : l.flatMap g = [blk] := by
  induction l with
  | nil => cases hz
  | cons a l ih =>
    rw [List.flatMap_cons]
    rcases List.mem_cons.mp hz with rfl | hz'
    · rw [hg]
      have hrest : l.flatMap g = [] := by
        rw [List.flatMap_eq_nil_iff]
        intro y hy
        exact h0 y (List.mem_cons_of_mem _ hy)
          (fun hyz => (List.nodup_cons.mp hnd).1 (hyz ▸ hy))
      rw [hrest, List.append_nil]
    · have ha : g a = [] := by
        refine h0 a (List.mem_cons_self a l) (fun haz => ?_)
        exact (List.nodup_cons.mp hnd).1 (haz ▸ hz')
      rw [ha, List.nil_append]
      exact ih (List.nodup_cons.mp hnd).2 hz'
        (fun y hy => h0 y (List.mem_cons_of_mem _ hy))

theorem initialBlocks_key (grid : Nat → Nat → GridCell) {x z : Nat}
    (hx : x < 128) (hz : z < 128) :
    (initialBlocks grid).filter (fun b => b.x == x && b.z == z) =
      [{ x := x, z := z, color_name := (grid z x).name, item_id := (grid z x).id,
         is_placed := false }] := by
  unfold initialBlocks
  rw [List.filter_flatMap]
  apply flatMap_eq_single (List.nodup_range 128) (List.mem_range.mpr hz)
  · rw [List.filter_map]
    have hcond : ((fun (b : BlockRec) => b.x == x && b.z == z) ∘
        (fun x' => ({ x := x', z := z, color_name := (grid z x').name,
                      item_id := (grid z x').id, is_placed := false } : BlockRec)))
        = fun x' => x' == x := by
      funext x'
      simp
    rw [hcond, range_filter_beq hx]
    simp
  · intro y _ hy
    rw [List.filter_map, List.filter_eq_nil_iff.mpr, List.map_nil]
    intro x' _
    simp
    intro _
    omega

theorem initialBlocks_unplaced (grid : Nat → Nat → GridCell) :
    ∀ b ∈ initialBlocks grid, b.is_placed = false := by
  intro b hb
  unfold initialBlocks at hb
  obtain ⟨z', _, hb'⟩ := List.mem_flatMap.mp hb
  obtain ⟨x', _, rfl⟩ := List.mem_map.mp hb'
  rfl

theorem chunkFour_step {α : Type} (a b c d : α) (rest : List α) :
    chunkFour (a :: b :: c :: d :: rest) = [a, b, c, d] :: chunkFour rest := by
  simp [chunkFour]

theorem chunkFour_cons {α : Type} (a : α) (l : List α) :
    chunkFour (a :: l) = (a :: l.take 3) :: chunkFour (l.drop 3) := by
  match l with
  | [] => simp [chunkFour]
  | [_] => simp [chunkFour]
  | [_, _] => simp [chunkFour]
  | _ :: _ :: _ :: _ => simp [chunkFour_step, chunkFour]

theorem chunkFour_length {α : Type} (l : List α) :
    (chunkFour l).length = (l.length + 3) / 4 := by
  induction l using chunkFour.induct with
  | case1 => simp [chunkFour]
  | case2 a => simp [chunkFour]
  | case3 a b => simp [chunkFour]
  | case4 a b c => simp [chunkFour]
  | case5 a b c d rest ih =>
    rw [chunkFour_step]
    simp only [List.length_cons, ih]
    omega

theorem chunkFour_eq_nil_iff {α : Type} (l : List α) : chunkFour l = [] ↔ l = [] := by
  cases l with
  | nil => simp [chunkFour]
  | cons a l => rw [chunkFour_cons]; simp

theorem chunkFour_flatten {α : Type} (l : List α) : (chunkFour l).flatten = l := by
  induction l using chunkFour.induct with
  | case1 => simp [chunkFour]
  | case2 a => simp [chunkFour]
  | case3 a b => simp [chunkFour]
  | case4 a b c => simp [chunkFour]
  | case5 a b c d rest ih =>
    rw [chunkFour_step, List.flatten_cons, ih]
    rfl

theorem chunkFour_dropLast {α : Type} (l : List α) :
    ∀ c ∈ (chunkFour l).dropLast, c.length = 4 := by
  induction l using chunkFour.induct with
  | case1 => simp [chunkFour]
  | case2 a => simp [chunkFour]
  | case3 a b => simp [chunkFour]
  | case4 a b c => simp [chunkFour]
  | case5 a b c d rest ih =>
    intro cc hcc
    rw [chunkFour_step] at hcc
    by_cases h : chunkFour rest = []
    · rw [h] at hcc
      simp at hcc
    · rw [List.dropLast_cons_of_ne_nil h] at hcc
      rcases List.mem_cons.mp hcc with rfl | hcc'
      · rfl
      · exact ih cc hcc'

theorem flatMap_perm_congr {α β : Type} {l : List α} {f g : α → List β}
    (h : ∀ a ∈ l, (f a).Perm (g a)) : (l.flatMap f).Perm (l.flatMap g) := by
  induction l with
  | nil => rfl
  | cons a l ih =>
    rw [List.flatMap_cons, List.flatMap_cons]
    exact (h a (List.mem_cons_self a l)).append
      (ih fun a' ha' => h a' (List.mem_cons_of_mem _ ha'))

theorem flatMap_flatMap_flatten {α β : Type} (L : List (List α)) (f : α → List β) :
    L.flatMap (fun l => l.flatMap f) = L.flatten.flatMap f := by
  induction L with
  | nil => rfl
  | cons l L ih =>
    rw [List.flatMap_cons, List.flatten_cons, List.flatMap_append, ih]

theorem flatMap_filter_perm (keys : List Nat) :
    ∀ ps : List Placement, keys.Nodup → (∀ p ∈ ps, p.x ∈ keys) →
    (keys.flatMap fun k => ps.filter fun p => p.x == k).Perm ps := by
  induction keys with
  | nil =>
    intro ps _ hcov
    have hps : ps = [] := by
      cases ps with
      | nil => rfl
      | cons p ps' => cases hcov p (List.mem_cons_self p ps')
    simp [hps]
  | cons k ks ih =>
    intro ps hnd hcov
    rw [List.flatMap_cons]
    have hkmem : k ∉ ks := (List.nodup_cons.mp hnd).1
    have hstep : (ks.flatMap fun k' => ps.filter fun p => p.x == k') =
        ks.flatMap fun k' =>
          (ps.filter fun p => !(p.x == k)).filter fun p => p.x == k' := by
      apply List.flatMap_congr
      intro k' hk'
      rw [List.filter_filter]
      apply List.filter_congr
      intro p _
      have hkk : k' ≠ k := fun h => hkmem (h ▸ hk')
      by_cases hp : p.x = k' <;> simp [hp, hkk]
    rw [hstep]
    have hperm := ih (ps.filter fun p => !(p.x == k))
      (List.nodup_cons.mp hnd).2
      (by
        intro p hp
        have hmem := List.mem_of_mem_filter hp
        have hne : ¬(p.x == k) = true := by
          have := List.of_mem_filter hp
          simpa using this
        rcases List.mem_cons.mp (hcov p hmem) with h | h
        · exact absurd (by simpa using h) hne
        · exact h)
    exact ((List.Perm.refl _).append hperm).trans (List.filter_append_perm _ ps)

theorem rowKeys_nodup (ps : List Placement) : (rowKeys ps).Nodup :=
  (List.perm_insertionSort _ _).symm.nodup (List.nodup_dedup _)

theorem rowKeys_cover (ps : List Placement) : ∀ p ∈ ps, p.x ∈ rowKeys ps := by
  intro p hp
  unfold rowKeys
  rw [(List.perm_insertionSort _ _).mem_iff, List.mem_dedup]
  exact List.mem_map_of_mem _ hp

theorem initialBlocks_length (grid : Nat → Nat → GridCell) :
    (initialBlocks grid).length = 128 * 128 := by
  unfold initialBlocks
  rw [List.length_flatMap]
  have hmap : (List.map (List.length ∘ fun z =>
      (List.range 128).map fun x =>
        ({ x := x, z := z, color_name := (grid z x).name, item_id := (grid z x).id,
           is_placed := false } : BlockRec)) (List.range 128))
      = List.replicate 128 128 := by
    rw [show (128 : Nat) = (List.range 128).length from (List.length_range 128).symm]
    apply List.map_eq_replicate_iff.mpr
    intro z _
    simp
  rw [hmap, List.sum_replicate, smul_eq_mul]

/-!
Claim theorems.
-/

/-- Claim C8: `releaseStrip(i)` forces the row at `i` to `pending` with cleared
`assigned_to` and `assigned_at` regardless of its current content, leaves all
other rows and tables untouched, is idempotent, and after it an uninterfered
`claimStrip` call by any worker identity returns a strip index (released
strips are re-claimable). -/
theorem releaseStrip_unconditional_idempotent_reclaimable
    (db : DBState) (i : Nat) (w : String) (t : Nat)
    (hi : i < db.strips.length) :
    (releaseStrip i db).strips[i]? =
        some { status := .pending, assigned_to := none, assigned_at := none }
    ∧ (∀ j, j ≠ i → (releaseStrip i db).strips[j]? = db.strips[j]?)
    ∧ (releaseStrip i db).project = db.project
    ∧ (releaseStrip i db).blocks = db.blocks
    ∧ releaseStrip i (releaseStrip i db) = releaseStrip i db
    ∧ ∃ j, (claimStrip w t (releaseStrip i db)).1 = some j := by
  have hrow : (releaseStrip i db).strips[i]? =
      some { status := .pending, assigned_to := none, assigned_at := none } := by
    show (List.modify releaseRow i db.strips)[i]? = _
    rw [getElem?_modify_self, List.getElem?_eq_getElem hi]
    rfl
  refine ⟨hrow, ?_, rfl, rfl, ?_, ?_⟩
  · intro j hj
    exact getElem?_modify_ne releaseRow (Ne.symm hj) db.strips
  · show ({ db with strips := List.modify releaseRow i (List.modify releaseRow i db.strips) } : DBState)
        = { db with strips := List.modify releaseRow i db.strips }
    rw [@modify_idem StripRec releaseRow (fun _ => rfl) i db.strips]
  · have hmem := mem_of_getElem?_eq_some hrow
    obtain ⟨j, hj⟩ := selectPending_of_mem hmem rfl
    obtain ⟨s, hs, hp⟩ := selectPending_eq_some hj
    refine ⟨j, ?_⟩
    unfold claimStrip
    rw [hj]
    have hread : readAssigned j (condAssign j w t (releaseStrip i db).strips) = some w := by
      unfold readAssigned condAssign
      rw [getElem?_modify_self, hs]
      simp [hp]
    simp [hread]

/-- Claim C9: `updateBlockPlaced(x, z)` sets the cell's `is_placed` flag (and
only that), is idempotent and total, never unsets a placed flag, and no other
ledger operation except `clearProject`/`startNewMapArt` touches the `blocks`
table (`startNewMapArt` re-creating every cell unplaced). -/
theorem markCellPlaced_idempotent_monotone
    (db : DBState) (x z : Nat) (w : String) (t i : Nat) (pb : Bool) :
    updateBlockPlaced x z (updateBlockPlaced x z db) = updateBlockPlaced x z db
    ∧ (∀ b ∈ db.blocks, b.x = x ∧ b.z = z →
        { b with is_placed := true } ∈ (updateBlockPlaced x z db).blocks)
    ∧ (∀ b ∈ db.blocks, ¬(b.x = x ∧ b.z = z) → b ∈ (updateBlockPlaced x z db).blocks)
    ∧ (updateBlockPlaced x z db).project = db.project
    ∧ (updateBlockPlaced x z db).strips = db.strips
    ∧ (∀ x' z', ∀ b ∈ db.blocks, b.is_placed = true →
        ∃ b' ∈ (updateBlockPlaced x' z' db).blocks,
          b'.x = b.x ∧ b'.z = b.z ∧ b'.is_placed = true)
    ∧ (claimStrip w t db).2.blocks = db.blocks
    ∧ (releaseStrip i db).blocks = db.blocks
    ∧ (completeStrip i db).blocks = db.blocks
    ∧ (setPaused pb db).blocks = db.blocks
    ∧ (clearProject db).blocks = []
    ∧ (∀ src alg grid sw, ∀ b ∈ (startNewMapArt src alg grid sw db).blocks,
        b.is_placed = false) := by
  refine ⟨?_, ?_, ?_, rfl, rfl, ?_, ?_, rfl, rfl, rfl, rfl, ?_⟩
  · show ({ db with blocks := (db.blocks.map (placedRow x z)).map (placedRow x z) } : DBState)
        = { db with blocks := db.blocks.map (placedRow x z) }
    rw [List.map_map]
    congr 1
    exact List.map_congr_left fun b _ => placedRow_idem x z b
  · intro b hb h
    have : placedRow x z b = { b with is_placed := true } := by simp [placedRow, h]
    exact this ▸ List.mem_map_of_mem (placedRow x z) hb
  · intro b hb h
    have : placedRow x z b = b := by simp [placedRow, h]
    exact this ▸ List.mem_map_of_mem (placedRow x z) hb
  · intro x' z' b hb h
    refine ⟨placedRow x' z' b, List.mem_map_of_mem (placedRow x' z') hb, ?_⟩
    by_cases hc : b.x = x' ∧ b.z = z' <;> simp [placedRow, hc, h]
  · cases hsel : selectPending db.strips <;> simp [claimStrip, hsel]
  · intro src alg grid sw b hb
    simp only [startNewMapArt, clearProject, initialBlocks] at hb
    obtain ⟨z', _, hb'⟩ := List.mem_flatMap.mp hb
    obtain ⟨x', _, rfl⟩ := List.mem_map.mp hb'
    rfl

/-- Claim C9 witness: the theorem applied to a concrete ledger. -/
theorem markCellPlaced_idempotent_monotone_witness :
    updateBlockPlaced 0 0 (updateBlockPlaced 0 0 dbOneCell) = updateBlockPlaced 0 0 dbOneCell :=
  (markCellPlaced_idempotent_monotone dbOneCell 0 0 "worker1" 0 0 false).1

theorem bumpKey_ne_nil (id : String) (acc : List (String × Nat)) :
    bumpKey id acc ≠ [] := by
  cases acc with
  | nil => simp [bumpKey]
  | cons e rest =>
    obtain ⟨k, n⟩ := e
    by_cases h : k = id <;> simp [bumpKey, h]

theorem foldl_bumpKey_ne_nil (ps : List Placement) :
    ∀ acc, acc ≠ [] → ps.foldl (fun acc p => bumpKey p.item_id acc) acc ≠ [] := by
  induction ps with
  | nil => intro acc h; exact h
  | cons p ps ih => intro acc _; exact ih _ (bumpKey_ne_nil _ _)

theorem required_eq_nil_iff (i : Nat) (db : DBState) :
    getRequiredMaterialsForStrip i db = [] ↔ getPlacementsForStrip i db = [] := by
  unfold getRequiredMaterialsForStrip
  cases h : getPlacementsForStrip i db with
  | nil => simp
  | cons p ps =>
    simp only [List.foldl_cons]
    constructor
    · intro hf
      exact absurd hf (foldl_bumpKey_ne_nil ps _ (bumpKey_ne_nil _ _))
    · intro hc
      cases hc

theorem getPlacementsForStrip_completeStrip (i j : Nat) (db : DBState) :
    getPlacementsForStrip i (completeStrip j db) = getPlacementsForStrip i db := rfl

theorem placeBatchGo_cons (oracle : AttemptOracle) (stopFrom : Option Nat)
    (p : Placement) (ps : List Placement) (db : DBState) (t : Nat) :
    placeBatchGo oracle stopFrom (p :: ps) db t =
      if stoppedAt stopFrom t then (db, t + 1, [])
      else
        let c := placeCell oracle p db
        let r := placeBatchGo oracle stopFrom ps c.1 (t + 1)
        (r.1, r.2.1, c.2 ++ r.2.2) := rfl

theorem buildLoop_cons (world : World) (oracle : AttemptOracle)
    (stopFrom : Option Nat) (batch : List Placement) (rest : List (List Placement))
    (db : DBState) (t : Nat) :
    buildLoop world oracle stopFrom (batch :: rest) db t =
      if stoppedAt stopFrom t then (true, db, t + 1, [.stoppedLog])
      else
        match findSafeStandPosForBatch world batch with
        | none =>
          let r := buildLoop world oracle stopFrom rest db (t + 1)
          (r.1, r.2.1, r.2.2.1, .skipBatchLog :: r.2.2.2)
        | some _standPos =>
          let c := placeBatchGo oracle stopFrom batch db (t + 1)
          let r := buildLoop world oracle stopFrom rest c.1 c.2.1
          (r.1, r.2.1, r.2.2.1, c.2.2 ++ r.2.2.2) := rfl

theorem buildCurrentStrip_eq_empty (world : World) (oracle : AttemptOracle)
    (stopFrom : Option Nat) (i : Nat) (db : DBState)
    (hq : getPlacementsForStrip i db = []) :
    buildCurrentStrip world oracle stopFrom i db = (true, db, []) := by
  unfold buildCurrentStrip
  simp [hq]

theorem buildCurrentStrip_eq_run (world : World) (oracle : AttemptOracle)
    (stopFrom : Option Nat) (i : Nat) (db : DBState)
    (hq : getPlacementsForStrip i db ≠ []) :
    buildCurrentStrip world oracle stopFrom i db =
      (let r := buildLoop world oracle stopFrom
          (groupIntoFourRowBatches (getPlacementsForStrip i db)) db 0
       if r.1 then (false, r.2.1, r.2.2.2)
       else ((getPlacementsForStrip i r.2.1).length == 0, r.2.1, r.2.2.2)) := by
  unfold buildCurrentStrip
  have hlen : ¬(getPlacementsForStrip i db).length = 0 := by
    simpa [List.length_eq_zero] using hq
  simp [hlen]

theorem buildCurrentStrip_true_sound (world : World) (oracle : AttemptOracle)
    (stopFrom : Option Nat) (i : Nat) (db : DBState)
    (h : (buildCurrentStrip world oracle stopFrom i db).1 = true) :
    getPlacementsForStrip i (buildCurrentStrip world oracle stopFrom i db).2.1 = [] := by
  by_cases hq : getPlacementsForStrip i db = []
  · rw [buildCurrentStrip_eq_empty world oracle stopFrom i db hq]
    exact hq
  · rw [buildCurrentStrip_eq_run world oracle stopFrom i db hq] at h ⊢
    set r := buildLoop world oracle stopFrom
      (groupIntoFourRowBatches (getPlacementsForStrip i db)) db 0 with hr
    by_cases hs : r.1
    · rw [if_pos hs] at h
      cases h
    · rw [if_neg hs] at h ⊢
      simp only at h ⊢
      exact List.length_eq_zero.mp (by simpa using h)

theorem buildingTick_complete_sound (world : World) (oracle : AttemptOracle)
    (stopFrom : Option Nat) (hasMats : Bool) (i : Nat) (db : DBState)
    (htick : (buildingTick world oracle stopFrom hasMats i db).1 = .completedStrip) :
    getPlacementsForStrip i (buildingTick world oracle stopFrom hasMats i db).2 = [] := by
  by_cases hreq : getRequiredMaterialsForStrip i db = []
  · have hq := (required_eq_nil_iff i db).mp hreq
    unfold buildingTick
    simp [List.isEmpty_iff, hreq, getPlacementsForStrip_completeStrip, hq]
  · by_cases hm : hasMats
    · by_cases hres : (buildCurrentStrip world oracle stopFrom i db).1 = true
      · have hsound := buildCurrentStrip_true_sound world oracle stopFrom i db hres
        unfold buildingTick
        simp [List.isEmpty_iff, hreq, hm, hres,
          getPlacementsForStrip_completeStrip, hsound]
      · unfold buildingTick at htick
        simp [List.isEmpty_iff, hreq, hm, hres] at htick
    · unfold buildingTick at htick
      simp [List.isEmpty_iff, hreq, hm] at htick

theorem stripInv_modify {f : StripRec → StripRec}
    (hf : ∀ r, (r.assigned_to ≠ none → r.status ≠ .pending) →
      ((f r).assigned_to ≠ none → (f r).status ≠ .pending))
    {l : List StripRec} (h : stripInv l) (i : Nat) :
    stripInv (List.modify f i l) := by
  intro r hr
  rw [List.mem_iff_getElem?] at hr
  obtain ⟨j, hj⟩ := hr
  by_cases hij : i = j
  · subst hij
    rw [getElem?_modify_self] at hj
    cases hl : l[i]? with
    | none => rw [hl] at hj; cases hj
    | some r₀ =>
      rw [hl] at hj
      have hr₀ : r₀ ∈ l := mem_of_getElem?_eq_some hl
      have hj' : f r₀ = r := by simpa using hj
      exact hj' ▸ hf r₀ (h r₀ hr₀)
  · rw [getElem?_modify_ne _ hij] at hj
    exact h r (mem_of_getElem?_eq_some hj)

theorem stepSys_inv {s : Sys} (h : stripInv s.strips) (e : Ev) :
    stripInv (stepSys s e).strips := by
  cases e with
  | selectEv w =>
    simp only [stepSys]
    split
    · split
      · exact h
      · exact h
    · exact h
  | updateEv w t =>
    simp only [stepSys]
    split
    · show stripInv (condAssign _ w t s.strips)
      unfold condAssign
      apply stripInv_modify ?_ h
      intro r hr
      by_cases hp : r.status = .pending
      · simp [hp]
      · simp only [if_neg hp]
        exact hr
    · exact h
  | confirmEv w =>
    simp only [stepSys]
    split
    · exact h
    · exact h
  | releaseEv i =>
    simp only [stepSys]
    apply stripInv_modify ?_ h
    intro r _ hne
    exact absurd rfl hne
  | completeEv i =>
    simp only [stepSys]
    apply stripInv_modify ?_ h
    intro r _ _
    simp [completeRow]

theorem stripInv_init (n : Nat) : stripInv (initSys n).strips := by
  intro r hr
  have := List.eq_of_mem_replicate hr
  subst this
  simp

theorem runState_inv {s : Sys} (h : stripInv s.strips) (es : List Ev) :
    stripInv (runState s es).strips := by
  induction es generalizing s with
  | nil => exact h
  | cons e es ih => exact ih (stepSys_inv h e)

theorem runState_append (s : Sys) (es es' : List Ev) :
    runState s (es ++ es') = runState (runState s es) es' := by
  induction es generalizing s with
  | nil => rfl
  | cons e es ih => exact ih (stepSys s e)

theorem readAssigned_row {strips : List StripRec} {i : Nat} {w : String}
    (hr : readAssigned i strips = some w) :
    ∃ r, strips[i]? = some r ∧ r.assigned_to = some w := by
  unfold readAssigned at hr
  cases hl : strips[i]? with
  | none => rw [hl] at hr; cases hr
  | some r =>
    rw [hl] at hr
    exact ⟨r, rfl, by simpa using hr⟩

theorem stepSys_select_strips (s : Sys) (w : String) :
    (stepSys s (.selectEv w)).strips = s.strips := by
  simp only [stepSys]
  split
  · split
    · rfl
    · rfl
  · rfl

theorem stepSys_confirm_strips (s : Sys) (w : String) :
    (stepSys s (.confirmEv w)).strips = s.strips := by
  simp only [stepSys]
  split
  · rfl
  · rfl

theorem assigned_stable_step {s : Sys} {i : Nat} {w : String} (e : Ev)
    (hinv : stripInv s.strips)
    (hr : readAssigned i s.strips = some w)
    (hne : e ≠ .releaseEv i) :
    readAssigned i (stepSys s e).strips = some w := by
  obtain ⟨r, hrow, hrw⟩ := readAssigned_row hr
  have hmem := mem_of_getElem?_eq_some hrow
  have hnp : r.status ≠ .pending := hinv r hmem (by simp [hrw])
  cases e with
  | selectEv v =>
    rw [stepSys_select_strips]
    exact hr
  | confirmEv v =>
    rw [stepSys_confirm_strips]
    exact hr
  | updateEv v t =>
    simp only [stepSys]
    split
    · next j _ =>
      show readAssigned i (condAssign j v t s.strips) = some w
      unfold readAssigned condAssign
      by_cases hij : j = i
      · subst hij
        rw [getElem?_modify_self, hrow]
        simp [hnp, hrw]
      · rw [getElem?_modify_ne _ hij]
        exact hr
    · exact hr
  | releaseEv j =>
    have hij : j ≠ i := fun h => hne (h ▸ rfl)
    simp only [stepSys]
    unfold readAssigned
    rw [getElem?_modify_ne _ hij]
    exact hr
  | completeEv j =>
    simp only [stepSys]
    unfold readAssigned
    by_cases hij : j = i
    · subst hij
      rw [getElem?_modify_self, hrow]
      simpa [completeRow] using hrw
    · rw [getElem?_modify_ne _ hij]
      exact hr

theorem assigned_stable_run {s : Sys} {i : Nat} {w : String} {es : List Ev}
    (hinv : stripInv s.strips)
    (hr : readAssigned i s.strips = some w)
    (hno : Ev.releaseEv i ∉ es) :
    readAssigned i (runState s es).strips = some w := by
  induction es generalizing s with
  | nil => exact hr
  | cons e es ih =>
    have hne : e ≠ .releaseEv i := fun h => hno (h ▸ List.mem_cons_self e es)
    exact ih (stepSys_inv hinv e) (assigned_stable_step e hinv hr hne)
      (fun hm => hno (List.mem_cons_of_mem _ hm))

theorem confirm_emit_some {S : Sys} {w : String} {i : Nat}
    (h : emitOf S (.confirmEv w) = some (w, some i)) :
    readAssigned i S.strips = some w := by
  cases hp : S.phase w with
  | idle => simp [emitOf, hp] at h
  | selected j => simp [emitOf, hp] at h
  | updated j =>
    simp only [emitOf, hp] at h
    by_cases hra : readAssigned j S.strips = some w
    · rw [if_pos hra] at h
      have hj : j = i := by simpa using h
      exact hj ▸ hra
    · rw [if_neg hra] at h
      simp at h

/-- Claim C5: `_groupIntoFourRowBatches` groups the cells by their `x` row
index with row keys ascending and distinct, emits `ceil(R/4)` batches of up
to 4 consecutive rows (only the last may hold fewer than 4), sorts each row
ascending by `z`, and the batches together contain exactly the input cells. -/
theorem groupIntoFourRowBatches_spec (ps : List Placement) (_hne : ps ≠ []) :
    groupIntoFourRowBatches ps =
        (chunkFour (rowKeys ps)).map (fun ks => ks.flatMap (rowOf ps))
    ∧ (groupIntoFourRowBatches ps).length = ((rowKeys ps).length + 3) / 4
    ∧ (∀ c ∈ (chunkFour (rowKeys ps)).dropLast, c.length = 4)
    ∧ List.Pairwise (· ≤ ·) (rowKeys ps)
    ∧ (rowKeys ps).Nodup
    ∧ (∀ k, List.Pairwise zLE (rowOf ps k))
    ∧ (∀ k, (rowOf ps k).Perm (ps.filter fun p => p.x == k))
    ∧ ((groupIntoFourRowBatches ps).flatten).Perm ps := by
  refine ⟨rfl, ?_, chunkFour_dropLast _, ?_, rowKeys_nodup ps, ?_, ?_, ?_⟩
  · rw [groupIntoFourRowBatches, List.length_map, chunkFour_length]
  · exact List.sorted_insertionSort _ _
  · intro k
    exact List.sorted_insertionSort _ _
  · intro k
    exact List.perm_insertionSort _ _
  · rw [groupIntoFourRowBatches, ← List.flatMap_def,
      flatMap_flatMap_flatten, chunkFour_flatten]
    exact (flatMap_perm_congr fun k _ => List.perm_insertionSort _ _).trans
      (flatMap_filter_perm (rowKeys ps) ps (rowKeys_nodup ps) (rowKeys_cover ps))

/-- Claim C5 witness: the theorem applied to 3 cells spanning 2 distinct rows,
which indeed form exactly 1 batch. -/
theorem groupIntoFourRowBatches_spec_witness :
    ps3cells ≠ []
    ∧ (groupIntoFourRowBatches ps3cells).length = 1
    ∧ (groupIntoFourRowBatches ps3cells =
        (chunkFour (rowKeys ps3cells)).map (fun ks => ks.flatMap (rowOf ps3cells))
      ∧ (groupIntoFourRowBatches ps3cells).length = ((rowKeys ps3cells).length + 3) / 4
      ∧ (∀ c ∈ (chunkFour (rowKeys ps3cells)).dropLast, c.length = 4)
      ∧ List.Pairwise (· ≤ ·) (rowKeys ps3cells)
      ∧ (rowKeys ps3cells).Nodup
      ∧ (∀ k, List.Pairwise zLE (rowOf ps3cells k))
      ∧ (∀ k, (rowOf ps3cells k).Perm (ps3cells.filter fun p => p.x == k))
      ∧ ((groupIntoFourRowBatches ps3cells).flatten).Perm ps3cells) :=
  ⟨by decide, by decide, groupIntoFourRowBatches_spec ps3cells (by decide)⟩

/-- Claim C3 counterexample: on a ledger whose strip 0 is `completed`,
`releaseStrip 0` moves it back to `pending`, so a completed band does not
stay completed under the listed ledger operations. -/
theorem releaseStrip_resets_completed :
    statusAt 0 dbCompletedOne = some .completed
    ∧ statusAt 0 (releaseStrip 0 dbCompletedOne) = some .pending := by
  constructor <;> rfl

/-- Claim C3 amended: a completed strip stays completed under `claimStrip`
(whose conditional update never fires on a non-pending row), `completeStrip`,
`updateBlockPlaced`, `setPaused`, and `releaseStrip` of any other index;
`releaseStrip` of the strip itself, however, resets it to `pending`. -/
theorem completed_stays_completed_except_release
    (db : DBState) (i j : Nat) (w : String) (t x z : Nat) (pb : Bool)
    (hc : statusAt i db = some .completed) :
    statusAt i (claimStrip w t db).2 = some .completed
    ∧ statusAt i (completeStrip j db) = some .completed
    ∧ statusAt i (updateBlockPlaced x z db) = some .completed
    ∧ statusAt i (setPaused pb db) = some .completed
    ∧ (j ≠ i → statusAt i (releaseStrip j db) = some .completed)
    ∧ statusAt i (releaseStrip i db) = some .pending := by
  obtain ⟨s, hs, hsc⟩ : ∃ s, db.strips[i]? = some s ∧ s.status = .completed := by
    unfold statusAt at hc
    cases h : db.strips[i]? with
    | none => rw [h] at hc; cases hc
    | some s =>
      rw [h] at hc
      exact ⟨s, rfl, by simpa using hc⟩
  refine ⟨?_, ?_, hc, hc, ?_, ?_⟩
  · cases hsel : selectPending db.strips with
    | none => simpa [claimStrip, hsel] using hc
    | some k =>
      have h2 : (claimStrip w t db).2 = { db with strips := condAssign k w t db.strips } := by
        simp [claimStrip, hsel]
      rw [h2]
      unfold statusAt condAssign
      by_cases hk : k = i
      · subst hk
        rw [getElem?_modify_self, hs]
        simp [hsc]
      · rw [getElem?_modify_ne _ hk]
        exact hc
  · unfold statusAt completeStrip
    by_cases hj : j = i
    · subst hj
      simp only
      rw [getElem?_modify_self, hs]
      simp [completeRow]
    · simp only
      rw [getElem?_modify_ne _ hj]
      exact hc
  · intro hj
    unfold statusAt releaseStrip
    simp only
    rw [getElem?_modify_ne _ hj]
    exact hc
  · unfold statusAt releaseStrip
    simp only
    rw [getElem?_modify_self, hs]
    rfl

/-- Claim C3 amended witness: the amended theorem applied to the concrete
completed-strip ledger. -/
theorem completed_stays_completed_except_release_witness :
    statusAt 0 dbCompletedOne = some .completed
    ∧ (statusAt 0 (claimStrip "worker2" 9 dbCompletedOne).2 = some .completed
       ∧ statusAt 0 (completeStrip 1 dbCompletedOne) = some .completed
       ∧ statusAt 0 (updateBlockPlaced 3 4 dbCompletedOne) = some .completed
       ∧ statusAt 0 (setPaused true dbCompletedOne) = some .completed
       ∧ ((1 : Nat) ≠ 0 → statusAt 0 (releaseStrip 1 dbCompletedOne) = some .completed)
       ∧ statusAt 0 (releaseStrip 0 dbCompletedOne) = some .pending) :=
  ⟨by rfl, completed_stays_completed_except_release dbCompletedOne 0 1 "worker2" 9 3 4 true (by rfl)⟩

/-- Claim C4: after `startNewMapArt` on the 128x128 grid with a positive band
width, all prior rows are wiped (the result does not depend on the prior
state), the project row is active and unpaused with
`total_strips = ceil(128 / bandWidth)`, there is exactly one cell row per
coordinate carrying the grid's material and `is_placed = false`, there are
exactly `ceil(128 / bandWidth)` strip rows all pending with null
`assigned_to`, and `getCompletionStats` reports `placed_blocks = 0` and
`pending_strips = total_strips`. -/
theorem startNewMapArt_spec (src alg : String) (grid : Nat → Nat → GridCell)
    (sw : Nat) (db dbOther : DBState) (_hw : 0 < sw) :
    startNewMapArt src alg grid sw db = startNewMapArt src alg grid sw dbOther
    ∧ (startNewMapArt src alg grid sw db).project = some
        { image_source := src, dithering_algorithm := alg, is_active := true,
          is_paused := false, strip_width := sw, total_strips := totalStripsFor sw }
    ∧ (∀ x z : Nat, x < 128 → z < 128 →
        (startNewMapArt src alg grid sw db).blocks.filter
            (fun b => b.x == x && b.z == z) =
          [{ x := x, z := z, color_name := (grid z x).name,
             item_id := (grid z x).id, is_placed := false }])
    ∧ (startNewMapArt src alg grid sw db).blocks.length = 128 * 128
    ∧ (startNewMapArt src alg grid sw db).strips =
        List.replicate (totalStripsFor sw)
          { status := .pending, assigned_to := none, assigned_at := none }
    ∧ getCompletionStats (startNewMapArt src alg grid sw db) = some
        { total_blocks := 128 * 128, placed_blocks := 0,
          total_strips := totalStripsFor sw, pending_strips := totalStripsFor sw,
          assigned_strips := 0, completed_strips := 0 } := by
  refine ⟨rfl, rfl, fun x z hx hz => initialBlocks_key grid hx hz,
    initialBlocks_length grid, rfl, ?_⟩
  have hplaced : ((initialBlocks grid).filter fun b => b.is_placed) = [] := by
    rw [List.filter_eq_nil_iff]
    intro b hb
    simp [initialBlocks_unplaced grid b hb]
  simp [getCompletionStats, startNewMapArt, clearProject, hplaced,
    List.filter_replicate]

/-- Claim C4 witness: the theorem applied at band width 16 and the all-white
grid. -/
theorem startNewMapArt_spec_witness :
    (0 : Nat) < 16
    ∧ (startNewMapArt "image.png" "none" exGrid 16 dbTwoPending =
         startNewMapArt "image.png" "none" exGrid 16 dbOneCell
      ∧ (startNewMapArt "image.png" "none" exGrid 16 dbTwoPending).project = some
          { image_source := "image.png", dithering_algorithm := "none",
            is_active := true, is_paused := false, strip_width := 16,
            total_strips := totalStripsFor 16 }
      ∧ (∀ x z : Nat, x < 128 → z < 128 →
          (startNewMapArt "image.png" "none" exGrid 16 dbTwoPending).blocks.filter
              (fun b => b.x == x && b.z == z) =
            [{ x := x, z := z, color_name := (exGrid z x).name,
               item_id := (exGrid z x).id, is_placed := false }])
      ∧ (startNewMapArt "image.png" "none" exGrid 16 dbTwoPending).blocks.length = 128 * 128
      ∧ (startNewMapArt "image.png" "none" exGrid 16 dbTwoPending).strips =
          List.replicate (totalStripsFor 16)
            { status := .pending, assigned_to := none, assigned_at := none }
      ∧ getCompletionStats (startNewMapArt "image.png" "none" exGrid 16 dbTwoPending) = some
          { total_blocks := 128 * 128, placed_blocks := 0,
            total_strips := totalStripsFor 16, pending_strips := totalStripsFor 16,
            assigned_strips := 0, completed_strips := 0 }) :=
  ⟨by decide,
   startNewMapArt_spec "image.png" "none" exGrid 16 dbTwoPending dbOneCell (by decide)⟩

theorem withdrawFromSlots_cons (itemId : String) (s : ChestSlot)
    (rest : List ChestSlot) (need : Nat) :
    withdrawFromSlots itemId (s :: rest) need =
      if s.item == itemId then
        if need ≤ min s.count need then min s.count need
        else min s.count need + withdrawFromSlots itemId rest (need - min s.count need)
      else withdrawFromSlots itemId rest need := rfl

theorem withdrawFromSlots_le (itemId : String) :
    ∀ (slots : List ChestSlot) (need : Nat),
      withdrawFromSlots itemId slots need ≤ need := by
  intro slots
  induction slots with
  | nil => intro need; simp [withdrawFromSlots]
  | cons s rest ih =>
    intro need
    rw [withdrawFromSlots_cons]
    by_cases hs : (s.item == itemId) = true
    · rw [if_pos hs]
      by_cases hle : need ≤ min s.count need
      · rw [if_pos hle]; omega
      · rw [if_neg hle]
        have := ih (need - min s.count need)
        omega
    · rw [if_neg hs]
      exact ih need

theorem scanChests_cons (env : StoreEnv) (c itemId : String) (need y : Nat)
    (ys : List Nat) (found : Nat) :
    scanChests env c itemId need (y :: ys) found =
      if need ≤ found then (found, 0)
      else
        match withdrawFromChest env c y itemId (need - found) with
        | none => (found, 0)
        | some w =>
          let r := scanChests env c itemId need ys (found + w)
          (r.1, r.2 + 1) := rfl

theorem scanChests_le (env : StoreEnv) (c itemId : String) (need : Nat) :
    ∀ (ys : List Nat) (found : Nat), found ≤ need →
      (scanChests env c itemId need ys found).1 ≤ need := by
  intro ys
  induction ys with
  | nil => intro found h; exact h
  | cons y ys ih =>
    intro found h
    rw [scanChests_cons]
    by_cases hf : need ≤ found
    · rw [if_pos hf]; exact h
    · rw [if_neg hf]
      cases hc : withdrawFromChest env c y itemId (need - found) with
      | none => exact h
      | some wAmt =>
        have hw : wAmt ≤ need - found := by
          unfold withdrawFromChest at hc
          cases hch : env.chestAt c y with
          | none => rw [hch] at hc; cases hc
          | some slots =>
            rw [hch] at hc
            have hinj := Option.some.inj hc
            rw [← hinj]
            exact withdrawFromSlots_le itemId slots (need - found)
        exact ih (found + wAmt) (by omega)

theorem scanChests_opens_le (env : StoreEnv) (c itemId : String) (need : Nat) :
    ∀ (ys : List Nat) (found : Nat),
      (scanChests env c itemId need ys found).2 ≤ ys.length := by
  intro ys
  induction ys with
  | nil => intro found; simp [scanChests]
  | cons y ys ih =>
    intro found
    rw [scanChests_cons]
    by_cases hf : need ≤ found
    · rw [if_pos hf]; simp
    · rw [if_neg hf]
      cases hc : withdrawFromChest env c y itemId (need - found) with
      | none => simp
      | some wAmt =>
        simp only [List.length_cons]
        have := ih (found + wAmt)
        omega

theorem scanChests_early_stop (env : StoreEnv) (c itemId : String)
    (need : Nat) (ys : List Nat) (found : Nat) (h : need ≤ found) :
    scanChests env c itemId need ys found = (found, 0) := by
  cases ys with
  | nil => rfl
  | cons y ys => rw [scanChests_cons, if_pos h]

theorem restockGo_cons (env : StoreEnv) (required : String → Nat)
    (c : String) (cs : List String) :
    restockGo env required (c :: cs) =
      match colorItemId c with
      | none => restockGo env required cs
      | some itemId =>
        if required itemId = 0 then restockGo env required cs
        else if !env.hasChestOffset c then
          (false, (restockGo env required cs).2)
        else
          (decide (required itemId ≤
              (scanChests env c itemId (required itemId) [0, 1, 2, 3, 4] 0).1)
            && (restockGo env required cs).1,
           (itemId, (scanChests env c itemId (required itemId) [0, 1, 2, 3, 4] 0).1)
             :: (restockGo env required cs).2) := rfl

theorem restockGo_cons_none (env : StoreEnv) (required : String → Nat)
    (c : String) (cs : List String) (h : colorItemId c = none) :
    restockGo env required (c :: cs) = restockGo env required cs := by
  rw [restockGo_cons, h]

theorem restockGo_cons_skip (env : StoreEnv) (required : String → Nat)
    (c : String) (cs : List String) (id : String)
    (hci : colorItemId c = some id) (hreq : required id = 0) :
    restockGo env required (c :: cs) = restockGo env required cs := by
  rw [restockGo_cons, hci]
  simp [hreq]

theorem restockGo_cons_nooffset (env : StoreEnv) (required : String → Nat)
    (c : String) (cs : List String) (id : String)
    (hci : colorItemId c = some id) (hreq : required id ≠ 0)
    (hch : env.hasChestOffset c = false) :
    restockGo env required (c :: cs) = (false, (restockGo env required cs).2) := by
  rw [restockGo_cons, hci]
  simp [hreq, hch]

theorem restockGo_cons_attempt (env : StoreEnv) (required : String → Nat)
    (c : String) (cs : List String) (id : String)
    (hci : colorItemId c = some id) (hreq : required id ≠ 0)
    (hch : env.hasChestOffset c = true) :
    restockGo env required (c :: cs) =
      (decide (required id ≤ (scanChests env c id (required id) [0, 1, 2, 3, 4] 0).1)
        && (restockGo env required cs).1,
       (id, (scanChests env c id (required id) [0, 1, 2, 3, 4] 0).1)
         :: (restockGo env required cs).2) := by
  rw [restockGo_cons, hci]
  simp [hreq, hch]

theorem requiredIds_cons_none (required : String → Nat) (c : String)
    (cs : List String) (h : colorItemId c = none) :
    requiredIds required (c :: cs) = requiredIds required cs := by
  unfold requiredIds
  rw [List.filterMap_cons, h]

theorem requiredIds_cons_skip (required : String → Nat) (c : String)
    (cs : List String) (id : String) (h : colorItemId c = some id)
    (hreq : required id = 0) :
    requiredIds required (c :: cs) = requiredIds required cs := by
  unfold requiredIds
  rw [List.filterMap_cons, h]
  simp [hreq]

theorem requiredIds_cons_need (required : String → Nat) (c : String)
    (cs : List String) (id : String) (h : colorItemId c = some id)
    (hreq : required id ≠ 0) :
    requiredIds required (c :: cs) = id :: requiredIds required cs := by
  unfold requiredIds
  rw [List.filterMap_cons, h]
  simp [hreq]

theorem restockGo_log_keys (env : StoreEnv) (required : String → Nat)
    (hoff : ∀ c, env.hasChestOffset c = true) :
    ∀ colors, ((restockGo env required colors).2).map Prod.fst
      = requiredIds required colors := by
  intro colors
  induction colors with
  | nil => rfl
  | cons c cs ih =>
    cases hci : colorItemId c with
    | none =>
      rw [restockGo_cons_none env required c cs hci,
        requiredIds_cons_none required c cs hci]
      exact ih
    | some id =>
      by_cases hreq : required id = 0
      · rw [restockGo_cons_skip env required c cs id hci hreq,
          requiredIds_cons_skip required c cs id hci hreq]
        exact ih
      · rw [restockGo_cons_attempt env required c cs id hci hreq (hoff c),
          requiredIds_cons_need required c cs id hci hreq, List.map_cons, ih]

theorem restockGo_amounts_le (env : StoreEnv) (required : String → Nat) :
    ∀ colors, ∀ e ∈ (restockGo env required colors).2, e.2 ≤ required e.1 := by
  intro colors
  induction colors with
  | nil => intro e he; cases he
  | cons c cs ih =>
    intro e he
    cases hci : colorItemId c with
    | none =>
      rw [restockGo_cons_none env required c cs hci] at he
      exact ih e he
    | some id =>
      by_cases hreq : required id = 0
      · rw [restockGo_cons_skip env required c cs id hci hreq] at he
        exact ih e he
      · by_cases hch : env.hasChestOffset c = true
        · rw [restockGo_cons_attempt env required c cs id hci hreq hch] at he
          rcases List.mem_cons.mp he with rfl | he2
          · exact scanChests_le env c id (required id) [0, 1, 2, 3, 4] 0
              (Nat.zero_le _)
          · exact ih e he2
        · have hchf : env.hasChestOffset c = false := by
            simpa using hch
          rw [restockGo_cons_nooffset env required c cs id hci hreq hchf] at he
          exact ih e he

theorem restockGo_ok_iff (env : StoreEnv) (required : String → Nat)
    (hoff : ∀ c, env.hasChestOffset c = true) :
    ∀ colors, ((restockGo env required colors).1 = true ↔
      ∀ e ∈ (restockGo env required colors).2, required e.1 ≤ e.2) := by
  intro colors
  induction colors with
  | nil => simp [restockGo]
  | cons c cs ih =>
    cases hci : colorItemId c with
    | none =>
      rw [restockGo_cons_none env required c cs hci]
      exact ih
    | some id =>
      by_cases hreq : required id = 0
      · rw [restockGo_cons_skip env required c cs id hci hreq]
        exact ih
      · rw [restockGo_cons_attempt env required c cs id hci hreq (hoff c)]
        constructor
        · intro h e he
          have hok := (Bool.and_eq_true _ _).mp h
          rcases List.mem_cons.mp he with rfl | he2
          · simpa using hok.1
          · exact (ih.mp hok.2) e he2
        · intro h
          refine (Bool.and_eq_true _ _).mpr
            ⟨?_, ih.mpr fun e he => h e (List.mem_cons_of_mem _ he)⟩
          simpa using h _ (List.mem_cons_self _ _)

theorem restockGo_covers (env : StoreEnv) (required : String → Nat)
    (hoff : ∀ c, env.hasChestOffset c = true) :
    ∀ colors c id, c ∈ colors → colorItemId c = some id → required id ≠ 0 →
      ∃ f, (id, f) ∈ (restockGo env required colors).2 := by
  intro colors
  induction colors with
  | nil => intro c id hc; cases hc
  | cons c0 cs ih =>
    intro c id hc hid hreq
    rcases List.mem_cons.mp hc with rfl | hc2
    · rw [restockGo_cons_attempt env required c cs id hid hreq (hoff c)]
      exact ⟨_, List.mem_cons_self _ _⟩
    · obtain ⟨f, hf⟩ := ih c id hc2 hid hreq
      cases hci : colorItemId c0 with
      | none =>
        rw [restockGo_cons_none env required c0 cs hci]
        exact ⟨f, hf⟩
      | some id0 =>
        by_cases hreq0 : required id0 = 0
        · rw [restockGo_cons_skip env required c0 cs id0 hci hreq0]
          exact ⟨f, hf⟩
        · rw [restockGo_cons_attempt env required c0 cs id0 hci hreq0 (hoff c0)]
          exact ⟨f, List.mem_cons_of_mem _ hf⟩

theorem amountIn_of_mem {log : List (String × Nat)} {id : String} {f : Nat}
    (h : (id, f) ∈ log) : f ≤ amountIn log id := by
  induction log with
  | nil => cases h
  | cons e rest ih =>
    unfold amountIn at ih ⊢
    rcases List.mem_cons.mp h with rfl | h2
    · have hself : ((id, f).1 == id) = true := by simp
      simp only [List.filter_cons, hself, if_pos, List.map_cons, List.sum_cons]
      omega
    · rw [List.filter_cons]
      by_cases he : (e.1 == id) = true
      · rw [if_pos he]
        simp only [List.map_cons, List.sum_cons]
        have := ih h2
        omega
      · rw [if_neg he]
        exact ih h2

/-- Claim C7: `restock(required)` discards the entire held inventory first (the
result does not depend on it and the final inventory is exactly the
withdrawals), visits materials in the fixed configured store order skipping
those not required, scans at most the 5 vertically stacked chests per color
withdrawing no more than the remaining need and stopping the column scan as
soon as the need is met, keeps attempting the remaining materials after a
shortfall, and returns true iff every attempted required material reached its
full requested count — hence, when every required id is a configured color
id, true only if every required material was gathered in full. -/
theorem restock_spec (inv inv2 : String → Nat) (env : StoreEnv)
    (required : String → Nat)
    (hoff : ∀ c, env.hasChestOffset c = true)
    (hsupp : ∀ id, required id ≠ 0 → ∃ c ∈ restockOrder, colorItemId c = some id) :
    restockRun inv env required = restockRun inv2 env required
    ∧ (∀ id, (restockRun inv env required).2 id
        = amountIn (restockGo env required restockOrder).2 id)
    ∧ ((restockGo env required restockOrder).2).map Prod.fst
        = requiredIds required restockOrder
    ∧ (∀ e ∈ (restockGo env required restockOrder).2, e.2 ≤ required e.1)
    ∧ (∀ c itemId need found,
        (scanChests env c itemId need [0, 1, 2, 3, 4] found).2 ≤ 5)
    ∧ (∀ c itemId need ys found, need ≤ found →
        scanChests env c itemId need ys found = (found, 0))
    ∧ ((restockGo env required restockOrder).1 = true ↔
        ∀ e ∈ (restockGo env required restockOrder).2, required e.1 ≤ e.2)
    ∧ ((restockRun inv env required).1 = true →
        ∀ id, required id ≤ (restockRun inv env required).2 id) := by
  refine ⟨rfl, fun id => by simp [restockRun, discardInventory], ?_, ?_, ?_, ?_, ?_, ?_⟩
  · exact restockGo_log_keys env required hoff restockOrder
  · exact restockGo_amounts_le env required restockOrder
  · intro c itemId need found
    simpa using scanChests_opens_le env c itemId need [0, 1, 2, 3, 4] found
  · exact fun c itemId need ys found h => scanChests_early_stop env c itemId need ys found h
  · exact restockGo_ok_iff env required hoff restockOrder
  · intro hok id
    by_cases hreq : required id = 0
    · rw [hreq]
      exact Nat.zero_le _
    · obtain ⟨c, hc, hcid⟩ := hsupp id hreq
      obtain ⟨f, hf⟩ := restockGo_covers env required hoff restockOrder c id hc hcid hreq
      have hge : required id ≤ f :=
        (restockGo_ok_iff env required hoff restockOrder).mp hok (id, f) hf
      have hin : f ≤ amountIn (restockGo env required restockOrder).2 id :=
        amountIn_of_mem hf
      have hfin : (restockRun inv env required).2 id
          = amountIn (restockGo env required restockOrder).2 id := by
        simp [restockRun, discardInventory]
      omega

/-- Claim C7 witness: the theorem applied to the concrete store with a
white-carpet column needing 3 carpets: the round succeeds, withdraws exactly
3, and the final inventory holds them regardless of the prior inventory. -/
theorem restock_spec_witness :
    (∀ c, exStoreEnv.hasChestOffset c = true)
    ∧ (restockGo exStoreEnv exRequired restockOrder).1 = true
    ∧ ((restockGo exStoreEnv exRequired restockOrder).2).map Prod.fst = ["white_carpet"]
    ∧ (restockRun (fun _ => 9) exStoreEnv exRequired).2 "white_carpet" = 3
    ∧ ((restockRun (fun _ => 9) exStoreEnv exRequired).1 = true →
        ∀ id, exRequired id ≤ (restockRun (fun _ => 9) exStoreEnv exRequired).2 id) :=
  ⟨fun _ => rfl, by decide, by decide, by decide,
   (restock_spec (fun _ => 9) (fun _ => 0) exStoreEnv exRequired (fun _ => rfl)
     (by
       intro id h
       by_cases hb : id = "white_carpet"
       · subst hb
         exact ⟨"white", by decide, by decide⟩
       · exfalso
         have hfalse : (id == "white_carpet") = false := by
           simpa using hb
         simp only [exRequired, hfalse, Bool.false_eq_true, if_neg] at h
         exact h rfl)).2.2.2.2.2.2.2⟩

/-- Claim C1: mutual exclusion of claims.  For any interleaving of the atomic
micro-steps of `claimStrip` calls (pending-row select, conditional update,
confirming re-read) with releases and completes, starting from the
all-pending ledger: if worker `w1`'s confirm returns strip `i` as a
successful claim, and later a different worker `w2`'s confirm also returns
strip `i`, then strip `i` was released in between — each band index is
returned as a successful claim to at most one identity until that band is
released. -/
theorem claim_mutual_exclusion (n : Nat) (es1 es2 : List Ev)
    (w1 w2 : String) (i : Nat) (hw : w1 ≠ w2)
    (h1 : emitOf (runState (initSys n) es1) (.confirmEv w1) = some (w1, some i))
    (h2 : emitOf (runState (initSys n) (es1 ++ .confirmEv w1 :: es2)) (.confirmEv w2)
            = some (w2, some i)) :
    Ev.releaseEv i ∈ es2 := by
  by_contra hno
  have hr1 : readAssigned i (runState (initSys n) es1).strips = some w1 :=
    confirm_emit_some h1
  have hinv1 : stripInv (runState (initSys n) es1).strips :=
    runState_inv (stripInv_init n) es1
  have hsplit : runState (initSys n) (es1 ++ .confirmEv w1 :: es2)
      = runState (stepSys (runState (initSys n) es1) (.confirmEv w1)) es2 := by
    rw [runState_append]
    rfl
  have hinv1' : stripInv (stepSys (runState (initSys n) es1) (.confirmEv w1)).strips :=
    stepSys_inv hinv1 _
  have hr1' : readAssigned i
      (stepSys (runState (initSys n) es1) (.confirmEv w1)).strips = some w1 := by
    rw [stepSys_confirm_strips]
    exact hr1
  have hstable := assigned_stable_run hinv1' hr1' hno
  rw [← hsplit] at hstable
  have hr2 := confirm_emit_some h2
  rw [hstable] at hr2
  exact hw (by simpa using hr2)

/-- Claim C1 witness: the theorem applied to a concrete two-worker trace on a
one-strip ledger: alice claims strip 0, it is released, bob claims it; the
release is indeed in the middle segment. -/
theorem claim_mutual_exclusion_witness :
    ("alice" : String) ≠ "bob"
    ∧ emitOf (runState (initSys 1) claimTrace1) (.confirmEv "alice")
        = some ("alice", some 0)
    ∧ emitOf (runState (initSys 1) (claimTrace1 ++ .confirmEv "alice" :: claimTrace2))
        (.confirmEv "bob") = some ("bob", some 0)
    ∧ Ev.releaseEv 0 ∈ claimTrace2 :=
  ⟨by decide, by decide, by decide,
   claim_mutual_exclusion 1 claimTrace1 claimTrace2 "alice" "bob" 0
     (by decide) (by decide) (by decide)⟩

/-- Claim C6: when every attempt at a cell of a batch fails, the engine makes
exactly 3 attempts on that cell with a wait between consecutive attempts,
then logs the skip; the ledger is left untouched by that cell (its
`is_placed` flag stays as it was), and the batch loop proceeds to the
remaining cells without raising an error (the run is a total function whose
log is the cell's events followed by the rest of the batch's events). -/
theorem place_retry_then_skip (oracle : AttemptOracle) (p : Placement)
    (ps : List Placement) (db : DBState) (t : Nat)
    (hfail : ∀ n, n < 3 → oracle p.x p.z n = .err) :
    placeCell oracle p db =
      (db, [.attempt p.x p.z 0, .waitRetry p.x p.z, .attempt p.x p.z 1,
            .waitRetry p.x p.z, .attempt p.x p.z 2, .skipCell p.x p.z])
    ∧ placeBatchGo oracle none (p :: ps) db t =
        (let r := placeBatchGo oracle none ps db (t + 1)
         (r.1, r.2.1,
          [.attempt p.x p.z 0, .waitRetry p.x p.z, .attempt p.x p.z 1,
           .waitRetry p.x p.z, .attempt p.x p.z 2, .skipCell p.x p.z] ++ r.2.2)) := by
  have h0 := hfail 0 (by omega)
  have h1 := hfail 1 (by omega)
  have h2 := hfail 2 (by omega)
  have hcell : placeCell oracle p db =
      (db, [.attempt p.x p.z 0, .waitRetry p.x p.z, .attempt p.x p.z 1,
            .waitRetry p.x p.z, .attempt p.x p.z 2, .skipCell p.x p.z]) := by
    unfold placeCell
    simp [placeCellGo, h0, h1, h2]
  refine ⟨hcell, ?_⟩
  rw [placeBatchGo_cons]
  simp [stoppedAt, hcell]

/-- Claim C6 witness: the theorem applied to the oracle that always fails at
cell (0, 0); the second cell of the batch is still placed afterwards. -/
theorem place_retry_then_skip_witness :
    (∀ n, n < 3 → failAtOrigin cexCellA.x cexCellA.z n = .err)
    ∧ (placeCell failAtOrigin cexCellA cexDb =
        (cexDb, [.attempt 0 0 0, .waitRetry 0 0, .attempt 0 0 1,
                 .waitRetry 0 0, .attempt 0 0 2, .skipCell 0 0])
      ∧ placeBatchGo failAtOrigin none (cexCellA :: [cexCellB]) cexDb 0 =
        (let r := placeBatchGo failAtOrigin none [cexCellB] cexDb (0 + 1)
         (r.1, r.2.1,
          [.attempt 0 0 0, .waitRetry 0 0, .attempt 0 0 1,
           .waitRetry 0 0, .attempt 0 0 2, .skipCell 0 0] ++ r.2.2)))
    ∧ (placeBatchGo failAtOrigin none [cexCellA, cexCellB] cexDb 0).1.blocks =
        [{ x := 0, z := 0, color_name := "white", item_id := "white_carpet",
           is_placed := false },
         { x := 2, z := 0, color_name := "white", item_id := "white_carpet",
           is_placed := true }] :=
  ⟨by decide, place_retry_then_skip failAtOrigin cexCellA [cexCellB] cexDb 0 (by decide),
   by decide⟩

/-- Claim C10: `buildCurrentStrip` reports completion soundly — it returns true
only when the strip's unplaced-cell query is empty at the moment of return:
the early true return requires the initial query to be empty (ledger
untouched), a stop detected by the batch loop yields false, and otherwise the
returned boolean is exactly the emptiness of the final re-query; consequently
the mainLoop BUILDING branch calls `completeStrip` only on a strip with zero
unplaced cells. -/
theorem buildCurrentStrip_sound (world : World) (oracle : AttemptOracle)
    (stopFrom : Option Nat) (i : Nat) (db : DBState) (hasMats : Bool) :
    ((buildCurrentStrip world oracle stopFrom i db).1 = true →
      getPlacementsForStrip i (buildCurrentStrip world oracle stopFrom i db).2.1 = [])
    ∧ (getPlacementsForStrip i db = [] →
        buildCurrentStrip world oracle stopFrom i db = (true, db, []))
    ∧ (getPlacementsForStrip i db ≠ [] →
        (buildLoop world oracle stopFrom
            (groupIntoFourRowBatches (getPlacementsForStrip i db)) db 0).1 = true →
        (buildCurrentStrip world oracle stopFrom i db).1 = false)
    ∧ ((buildingTick world oracle stopFrom hasMats i db).1 = .completedStrip →
        getPlacementsForStrip i (buildingTick world oracle stopFrom hasMats i db).2 = []) := by
  refine ⟨buildCurrentStrip_true_sound world oracle stopFrom i db,
    buildCurrentStrip_eq_empty world oracle stopFrom i db, ?_,
    buildingTick_complete_sound world oracle stopFrom hasMats i db⟩
  intro hq hstop
  rw [buildCurrentStrip_eq_run world oracle stopFrom i db hq]
  simp only
  rw [if_pos hstop]

/-- Claim C10 witness: the theorem's gating conjunct applied to a ledger whose
strip 0 has no unplaced cells: the tick completes the strip and the query is
empty. -/
theorem buildCurrentStrip_sound_witness :
    (buildingTick solidWorld okOracle none true 0 dbOneDone).1 = .completedStrip
    ∧ getPlacementsForStrip 0 (buildingTick solidWorld okOracle none true 0 dbOneDone).2 = [] :=
  ⟨by decide,
   (buildCurrentStrip_sound solidWorld okOracle none 0 dbOneDone true).2.2.2 (by decide)⟩

/-- Claim C2 counterexample: anchor-search failure does not fall back to
per-cell placement.  In `cexWorld` the whole perimeter of the two-cell batch
is blocked, so `findSafeStandPosForBatch` fails, yet a safe 4-neighbor stand
position for the first cell exists (the spec's fallback would have placed
it, the oracle never fails); the engine instead logs that the batch is
skipped, attempts nothing, leaves both cells unplaced and reports the strip
incomplete. -/
theorem anchor_fail_no_fallback :
    findSafeStandPosForBatch cexWorld [cexCellA, cexCellB] = none
    ∧ specFallbackStandPos cexWorld (targetPosOf cexCellA) = some ⟨62, 281, 575⟩
    ∧ buildCurrentStrip cexWorld okOracle none 0 cexDb = (false, cexDb, [.skipBatchLog]) := by
  refine ⟨by decide, by decide, by decide⟩

/-- Claim C2 amended: when no qualifying stand position is found for a batch,
`buildCurrentStrip`'s loop logs the skip and proceeds directly to the next
batch: no cell of the failed batch is attempted (there is no per-cell
fallback), the ledger is unchanged by it, and the failure is not fatal — the
loop continues and completion is still decided by the final re-query. -/
theorem anchor_fail_skips_batch (world : World) (oracle : AttemptOracle)
    (stopFrom : Option Nat) (batch : List Placement) (rest : List (List Placement))
    (db : DBState) (t : Nat)
    (hstand : findSafeStandPosForBatch world batch = none)
    (hstop : stoppedAt stopFrom t = false) :
    buildLoop world oracle stopFrom (batch :: rest) db t =
      (let r := buildLoop world oracle stopFrom rest db (t + 1)
       (r.1, r.2.1, r.2.2.1, .skipBatchLog :: r.2.2.2)) := by
  rw [buildLoop_cons]
  simp [hstop, hstand]

/-- Claim C2 amended witness: the amended theorem applied to the solid world
and a single-cell batch. -/
theorem anchor_fail_skips_batch_witness :
    findSafeStandPosForBatch solidWorld [cexCellA] = none
    ∧ stoppedAt none 0 = false
    ∧ buildLoop solidWorld okOracle none ([cexCellA] :: []) cexDb 0 =
      (let r := buildLoop solidWorld okOracle none [] cexDb (0 + 1)
       (r.1, r.2.1, r.2.2.1, .skipBatchLog :: r.2.2.2)) :=
  ⟨by decide, by decide,
   anchor_fail_skips_batch solidWorld okOracle none [cexCellA] [] cexDb 0
     (by decide) (by decide)⟩

/-- Claim C8 witness: the theorem applied to the concrete two-strip ledger. -/
theorem releaseStrip_witness :
    (0 : Nat) < dbTwoPending.strips.length
    ∧ ((releaseStrip 0 dbTwoPending).strips[0]? =
        some { status := .pending, assigned_to := none, assigned_at := none }
      ∧ (∀ j, j ≠ 0 → (releaseStrip 0 dbTwoPending).strips[j]? = dbTwoPending.strips[j]?)
      ∧ (releaseStrip 0 dbTwoPending).project = dbTwoPending.project
      ∧ (releaseStrip 0 dbTwoPending).blocks = dbTwoPending.blocks
      ∧ releaseStrip 0 (releaseStrip 0 dbTwoPending) = releaseStrip 0 dbTwoPending
      ∧ ∃ j, (claimStrip "worker2" 3 (releaseStrip 0 dbTwoPending)).1 = some j) :=
  ⟨by decide,
   releaseStrip_unconditional_idempotent_reclaimable dbTwoPending 0 "worker2" 3 (by decide)⟩

end MapArtBot
